import Mathlib

/-!
Shallow embedding of the build side of Impala's partitioned hash join
(`be/src/exec/partitioned-hash-join-builder.cc`, class `PhjBuilder`).

Pure C++ member functions become Lean functions over explicit state records.
External collaborators (buffered tuple stream, hash table container, buffer
pool client, runtime-filter bank) are out of scope of the component; their
responses are passed in as explicit oracle arguments.  Fallible code returns
`Except Status`.
-/

namespace Phj

/-- Number of partitions per fanout.  Modelled from the spec: the constant
`PARTITION_FANOUT` lives in the header (not shown); the spec gives the
typical value 16 (§6 Configuration). -/
def PARTITION_FANOUT : Nat := 16

/-- Recursion cap before aborting the join.  Modelled from the spec:
`MAX_PARTITION_DEPTH` lives in the header (not shown); §6 lists it as the
recursion cap.  The value 16 is a representative concrete bound; no theorem
below depends on its numeric value. -/
def MAX_PARTITION_DEPTH : Nat := 16

/-- Bits of the hash used to partition (header constant; spec §6).  Only used
for the hash-table bucket ceiling `1 <<< (32 - NUM_PARTITIONING_BITS)`. -/
def NUM_PARTITIONING_BITS : Nat := 4

/-- Join operators (`TJoinOp::type` from the thrift-generated enum). -/
inductive TJoinOp where
  | innerJoin
  | leftOuterJoin
  | leftSemiJoin
  | leftAntiJoin
  | nullAwareLeftAntiJoin
  | rightOuterJoin
  | rightSemiJoin
  | rightAntiJoin
  | fullOuterJoin
  deriving DecidableEq, Repr

/-- `NeedToProcessUnmatchedBuildRows(join_op)`.  Modelled from the spec: the
function body lives in a join-op utility header not shown; spec §4.1 and the
source comment in `DoneProbingSinglePartition` (lines 529-531) name
right-outer, right-anti and full-outer as the ops that must emit unmatched
build rows. -/
def NeedToProcessUnmatchedBuildRows (op : TJoinOp) : Bool :=
  op = TJoinOp.rightOuterJoin || op = TJoinOp.rightAntiJoin
    || op = TJoinOp.fullOuterJoin

/-- `IsLeftSemiJoin(join_op)`.  Modelled from the spec: utility predicate for
the left semi/anti family, used by `DoneProbingSinglePartition`. -/
def IsLeftSemiJoin (op : TJoinOp) : Bool :=
  op = TJoinOp.leftSemiJoin || op = TJoinOp.leftAntiJoin
    || op = TJoinOp.nullAwareLeftAntiJoin

/-- `PhjBuilder::HashTableStoresNulls()` (lines 735-740): true iff the join op
is RIGHT_OUTER_JOIN, RIGHT_ANTI_JOIN or FULL_OUTER_JOIN, or
`std::accumulate(is_not_distinct_from_, false, logical_or)` is true. -/
def HashTableStoresNulls (joinOp : TJoinOp) (isNotDistinctFrom : List Bool) : Bool :=
  joinOp = TJoinOp.rightOuterJoin || joinOp = TJoinOp.rightAntiJoin
    || joinOp = TJoinOp.fullOuterJoin
    || isNotDistinctFrom.foldl (· || ·) false

/-- Error statuses the builder can return.  Each constructor corresponds to a
`Status` construction site in the source. -/
inductive Status where
  /-- "Internal error: could not find a partition to spill" (SpillPartition,
  lines 371-375). -/
  | noSpillablePartition
  /-- `TErrorCode::PARTITIONED_HASH_JOIN_MAX_PARTITION_DEPTH` (line 656). -/
  | maxPartitionDepth
  /-- `TErrorCode::PARTITIONED_HASH_JOIN_REPARTITION_FAILS` (line 676). -/
  | repartitionFails
  /-- `MemLimitExceeded` for `PREPARE_FOR_READ_FAILED_ERROR_MSG` (lines
  626, 700) and other memory failures propagated from collaborators. -/
  | memLimitExceeded
  /-- An error status propagated from `BufferedTupleStream::AddRow` (line
  338) or from a failed hash-table insert loop. -/
  | streamError
  deriving DecidableEq, Repr

/-- In-memory hash table handle: the two observables the builder reads are
`ByteSize()` and `HasMatches()`. -/
structure HashTbl where
  byteSize : Nat
  hasMatches : Bool
  deriving DecidableEq, Repr

/-- A build row as routed by the builder: the hash-key value and whether the
key columns include a NULL (drives null-aware routing). -/
structure Row where
  key : Nat
  nullKey : Bool
  deriving DecidableEq, Repr

/-- `BufferedTupleStream::UnpinMode`. -/
inductive UnpinMode where
  | unpinAll
  | unpinAllExceptCurrent
  deriving DecidableEq, Repr

/-- `PhjBuilder::Partition`: recursion level, spill flag, closed flag
(`IsClosed()` is true once `build_rows_` has been released by `Close`),
the rows of `build_rows_` in arrival order, the stream's pinned byte count
(`BytesPinned(false)`), the pinned size of the stream's current write page
(what `UNPIN_ALL_EXCEPT_CURRENT` keeps pinned), and the optional hash
table. -/
structure Partition where
  level : Nat
  isSpilled : Bool
  closed : Bool
  rows : List Row
  bytesPinned : Nat
  curWritePageBytes : Nat
  hashTbl : Option HashTbl
  deriving DecidableEq, Repr

namespace Partition

/-- `build_rows()->num_rows()`. -/
def numRows (p : Partition) : Nat := p.rows.length

/-- `Partition::CanSpill()`.  Modelled from the spec: the accessor lives in
the header (not shown); per the spec a partition is spillable while it is
neither closed nor already spilled (`is_spilled` is monotonic only until a
hash table is rebuilt, and spilling a spilled or closed partition frees
nothing). -/
def canSpill (p : Partition) : Bool := !p.closed && !p.isSpilled

/-- Effect of `BufferedTupleStream::UnpinStream(mode)` on the pinned byte
count: `UNPIN_ALL` unpins everything, `UNPIN_ALL_EXCEPT_CURRENT` keeps the
current write page pinned. -/
def unpinnedBytes (mode : UnpinMode) (p : Partition) : Nat :=
  match mode with
  | UnpinMode.unpinAll => 0
  | UnpinMode.unpinAllExceptCurrent => p.curWritePageBytes

/-- `PhjBuilder::Partition::Spill(mode)` (lines 773-790): close and drop the
hash table if any, unpin the stream according to `mode`, set
`is_spilled_ = true`. -/
def spill (p : Partition) (mode : UnpinMode) : Partition :=
  { p with
    hashTbl := none
    bytesPinned := unpinnedBytes mode p
    isSpilled := true }

/-- `PhjBuilder::Partition::Close(batch)` (lines 757-771): no-op when already
closed; otherwise close the hash table and release `build_rows_`. -/
def close (p : Partition) : Partition :=
  if p.closed then p
  else { p with hashTbl := none, bytesPinned := 0, closed := true }

/-- `PhjBuilder::Partition::BuildHashTable(built)` (lines 792-874).
External outcomes appear as arguments: `pinOk` is `PinStream`'s output,
`insertOk` is whether `Init`/`PrepareForRead`/the insert loop all succeed,
`htBytes` the resulting hash table size and `pinnedBytes` the fully pinned
stream size.  Returns the new partition, the
`built` output and the optional error status (`none` means OK).  On full
success the partition gets a hash table and `is_spilled_` is reset to false
(line 862); on the `not_built` paths the freshly created hash table is
closed and dropped again and `is_spilled_` is left unchanged. -/
def buildHashTable (p : Partition) (pinOk insertOk : Bool)
    (htBytes pinnedBytes : Nat) : Partition × Bool × Option Status :=
  if !pinOk then (p, false, none)
  else
    let pinned := { p with bytesPinned := pinnedBytes }
    if insertOk then
      ({ pinned with
          hashTbl := some { byteSize := htBytes, hasMatches := false }
          isSpilled := false }, true, none)
    else
      ({ pinned with hashTbl := none }, false, some Status.streamError)

end Partition

/-- `HashJoinState` (from the header; transitions validated by
`PhjBuilder::UpdateState`, lines 266-286). -/
inductive HashJoinState where
  | partitioningBuild
  | partitioningProbe
  | probingSpilledPartition
  | repartitioningBuild
  | repartitioningProbe
  deriving DecidableEq, Repr

/-- Scratch min-max filter handle: the builder only observes `AlwaysTrue()`. -/
structure MinMaxFilter where
  alwaysTrue : Bool
  deriving DecidableEq, Repr

/-- One element of `filter_ctxs_`: the registered filter's id and size, and
which scratch filters were allocated (`local_bloom_filter` /
`local_min_max_filter`, exactly one in practice). -/
structure FilterContext where
  filterId : Nat
  filterSize : Nat
  localBloom : Bool
  localMinMax : Option MinMaxFilter
  deriving DecidableEq, Repr

/-- The Bloom filter argument passed to
`RuntimeFilterBank::UpdateFilterFromLocal`. -/
inductive BloomPub where
  /-- `BloomFilter::ALWAYS_TRUE_FILTER`. -/
  | alwaysTrueSentinel
  /-- the scratch filter `ctx.local_bloom_filter`. -/
  | scratch
  deriving DecidableEq, Repr

/-- One call to `RuntimeFilterBank::UpdateFilterFromLocal(id, bloom, minmax)`
made by `PublishRuntimeFilters`. -/
structure FilterUpdate where
  filterId : Nat
  bloom : Option BloomPub
  minMax : Option MinMaxFilter
  deriving DecidableEq, Repr

/-- The mutable state of a `PhjBuilder` that the modelled operations read and
write: the configuration (`join_op_`, `spillable_buffer_size_`, the filter
contexts), the state machine variable `state_`, the hash-table context level
(`ht_ctx_->level()`), the current fanout `hash_partitions_`, the optional
`null_aware_partition_`, `non_empty_build_`, the byte count held by the
`probe_stream_reservation_` sub-reservation, and the `closed_` flag. -/
structure BuilderSt where
  joinOp : TJoinOp
  spillableBufferSize : Nat
  filterCtxs : List FilterContext
  state : HashJoinState
  level : Nat
  hashPartitions : List Partition
  nullAware : Option Partition
  nonEmptyBuild : Bool
  probeRes : Nat
  closed : Bool
  deriving DecidableEq, Repr

/-- A reference to one of the builder's partitions: the null-aware partition
or the i-th entry of `hash_partitions_`. -/
inductive PartitionRef where
  | nullAware
  | hashPartition (i : Nat)
  deriving DecidableEq, Repr

/-- The freeable memory the spill heuristic attributes to a partition:
`BytesPinned(build_rows) + hash_tbl.ByteSize()` when a hash table exists
(SpillPartition, lines 357-363). -/
def spillMem (p : Partition) : Nat :=
  p.bytesPinned + (match p.hashTbl with
    | some h => h.byteSize
    | none => 0)

/-- The candidate-selection loop of `PhjBuilder::SpillPartition` (lines
353-368) over the enumerated `hash_partitions_`: skip partitions that cannot
spill, keep the first candidate whose freeable memory strictly exceeds the
running maximum `max_freed_mem` (initially 0). -/
def pickLoop : List (Nat × Partition) → Nat → Option (Nat × Partition) →
    Option (Nat × Partition)
  | [], _, best => best
  | (i, c) :: rest, maxFreed, best =>
    if c.canSpill = true ∧ maxFreed < spillMem c then
      pickLoop rest (spillMem c) (some (i, c))
    else
      pickLoop rest maxFreed best

/-- The victim chosen by `PhjBuilder::SpillPartition` (lines 345-375): the
null-aware partition when present and spillable, otherwise the result of the
largest-memory scan; `none` mirrors `best_candidate == nullptr`. -/
def spillPartitionChoice (st : BuilderSt) : Option (PartitionRef × Partition) :=
  match st.nullAware with
  | some na =>
    if na.canSpill then some (PartitionRef.nullAware, na)
    else (pickLoop st.hashPartitions.enum 0 none).map
      (fun ip => (PartitionRef.hashPartition ip.1, ip.2))
  | none =>
    (pickLoop st.hashPartitions.enum 0 none).map
      (fun ip => (PartitionRef.hashPartition ip.1, ip.2))

/-- `PhjBuilder::SpillPartition(mode)` (lines 345-382): pick the victim, fail
with the internal error when none exists, otherwise spill the victim in
place and report which partition was spilled. -/
def spillPartition (mode : UnpinMode) (st : BuilderSt) :
    BuilderSt × Except Status PartitionRef :=
  match spillPartitionChoice st with
  | none => (st, Except.error Status.noSpillablePartition)
  | some (PartitionRef.nullAware, na) =>
    ({ st with nullAware := some (na.spill mode) }, Except.ok PartitionRef.nullAware)
  | some (PartitionRef.hashPartition i, p) =>
    ({ st with hashPartitions := st.hashPartitions.set i (p.spill mode) },
      Except.ok (PartitionRef.hashPartition i))

/-- Number of partitions the builder could still spill (the loop variant of
the spill-retry loops: every successful `SpillPartition` decreases it). -/
def countSpillable (st : BuilderSt) : Nat :=
  st.hashPartitions.countP (fun p => p.canSpill) +
    (match st.nullAware with
     | some na => if na.canSpill then 1 else 0
     | none => 0)

theorem Partition.canSpill_spill (p : Partition) (mode : UnpinMode) :
    (p.spill mode).canSpill = false := by
  simp [Partition.spill, Partition.canSpill]

theorem pickLoop_some (l : List (Nat × Partition)) :
    ∀ (m : Nat) (best r : Option (Nat × Partition)) (x : Nat × Partition),
    r = some x → pickLoop l m best = r →
    best = some x ∨ (x ∈ l ∧ x.2.canSpill = true) := by
  induction l with
  | nil =>
    intro m best r x hx h
    exact Or.inl (by simpa [pickLoop, hx] using h)
  | cons y t ih =>
    intro m best r x hx h
    obtain ⟨i, c⟩ := y
    simp only [pickLoop] at h
    by_cases hcond : c.canSpill = true ∧ m < spillMem c
    · rw [if_pos hcond] at h
      rcases ih (spillMem c) (some (i, c)) r x hx h with h' | h'
      · have hxic : (i, c) = x := by simpa using h'
        subst hxic
        exact Or.inr ⟨List.mem_cons_self _ _, hcond.1⟩
      · exact Or.inr ⟨List.mem_cons_of_mem _ h'.1, h'.2⟩
    · rw [if_neg hcond] at h
      rcases ih m best r x hx h with h' | h'
      · exact Or.inl h'
      · exact Or.inr ⟨List.mem_cons_of_mem _ h'.1, h'.2⟩

theorem countP_set_of_canSpill (ps : List Partition) :
    ∀ (i : Nat) (p q : Partition), ps[i]? = some p → p.canSpill = true →
    q.canSpill = false →
    (ps.set i q).countP (fun r => r.canSpill) + 1
      = ps.countP (fun r => r.canSpill) := by
  induction ps with
  | nil => intro i p q hget; simp at hget
  | cons a t ih =>
    intro i p q hget hp hq
    cases i with
    | zero =>
      simp only [List.getElem?_cons_zero, Option.some.injEq] at hget
      subst hget
      simp [List.countP_cons, hp, hq]
    | succ n =>
      simp only [List.getElem?_cons_succ] at hget
      have h := ih n p q hget hp hq
      simp only [List.set, List.countP_cons]
      omega

theorem spillPartitionChoice_nullAware_inv (st : BuilderSt) (na : Partition)
    (h : spillPartitionChoice st = some (PartitionRef.nullAware, na)) :
    st.nullAware = some na ∧ na.canSpill = true := by
  unfold spillPartitionChoice at h
  split at h
  · rename_i na' hna
    split at h
    · rename_i hc
      obtain ⟨h1, h2⟩ := Prod.mk.injEq .. ▸ Option.some.inj h
      subst h2
      exact ⟨hna, hc⟩
    · cases hpl : pickLoop st.hashPartitions.enum 0 none with
      | none => rw [hpl] at h; simp at h
      | some ip => rw [hpl] at h; simp at h
  · cases hpl : pickLoop st.hashPartitions.enum 0 none with
    | none => rw [hpl] at h; simp at h
    | some ip => rw [hpl] at h; simp at h

theorem spillPartitionChoice_hashPartition_inv (st : BuilderSt) (i : Nat)
    (p : Partition)
    (h : spillPartitionChoice st = some (PartitionRef.hashPartition i, p)) :
    pickLoop st.hashPartitions.enum 0 none = some (i, p) := by
  unfold spillPartitionChoice at h
  split at h
  · rename_i na' hna
    split at h
    · simp at h
    · cases hpl : pickLoop st.hashPartitions.enum 0 none with
      | none => rw [hpl] at h; simp at h
      | some ip =>
        rw [hpl] at h
        obtain ⟨j, q⟩ := ip
        simp only [Option.map, Option.some.injEq, Prod.mk.injEq] at h
        obtain ⟨hj, hq⟩ := h
        cases hj; cases hq; rfl
  · cases hpl : pickLoop st.hashPartitions.enum 0 none with
    | none => rw [hpl] at h; simp at h
    | some ip =>
      rw [hpl] at h
      obtain ⟨j, q⟩ := ip
      simp only [Option.map, Option.some.injEq, Prod.mk.injEq] at h
      obtain ⟨hj, hq⟩ := h
      cases hj; cases hq; rfl

theorem spillPartition_ok_lt (mode : UnpinMode) (st st' : BuilderSt)
    (ref : PartitionRef)
    (h : spillPartition mode st = (st', Except.ok ref)) :
    countSpillable st' < countSpillable st := by
  unfold spillPartition at h
  split at h
  · rename_i hch
    exact absurd (congrArg Prod.snd h) (by simp)
  · rename_i na hch
    obtain ⟨hna, hc⟩ := spillPartitionChoice_nullAware_inv st na hch
    have hst' := congrArg Prod.fst h
    simp only at hst'
    rw [← hst']
    simp [countSpillable, hna, hc, Partition.canSpill_spill]
  · rename_i i p hch
    have hpl := spillPartitionChoice_hashPartition_inv st i p hch
    have hst' := congrArg Prod.fst h
    simp only at hst'
    rw [← hst']
    rcases pickLoop_some st.hashPartitions.enum 0 none _ (i, p) rfl hpl
      with h' | h'
    · exact absurd h' (by simp)
    · have hget : st.hashPartitions[i]? = some p :=
        (List.mk_mem_enum_iff_getElem?).mp h'.1
      have hcount := countP_set_of_canSpill st.hashPartitions i p
        (p.spill mode) hget h'.2 (Partition.canSpill_spill p mode)
      simp only [countSpillable]
      omega

/-- Result of `BufferedTupleStream::AddRow` as the builder observes it:
success, failure for lack of memory (returns false with OK status), or a
hard error status. -/
inductive AddRowResult where
  | success
  | full
  | err
  deriving DecidableEq, Repr

/-- Replace the i-th partition by `f` of it (out-of-range leaves the list). -/
def modifyAt (l : List Partition) (i : Nat) (f : Partition → Partition) :
    List Partition :=
  match l[i]? with
  | some p => l.set i (f p)
  | none => l

/-- `BufferedTupleStream::AddRow` success effect: append the row to the
referenced partition's stream. -/
def BuilderSt.addRowTo (st : BuilderSt) (ref : PartitionRef) (r : Row) :
    BuilderSt :=
  match ref with
  | PartitionRef.nullAware =>
    { st with nullAware :=
        st.nullAware.map (fun p => { p with rows := p.rows ++ [r] }) }
  | PartitionRef.hashPartition i =>
    { st with hashPartitions :=
        modifyAt st.hashPartitions i (fun p => { p with rows := p.rows ++ [r] }) }

/-- `PhjBuilder::AppendRowStreamFull` (lines 330-342): loop forever: spill a
partition with `UNPIN_ALL_EXCEPT_CURRENT` (its failure aborts with that
error), retry `AddRow` (success appends the row and returns, a hard error
aborts), otherwise keep spilling.  `addRow` is the stream's response by
attempt counter; the returned `Nat` is the next attempt counter. -/
def appendRowStreamFull (addRow : Nat → AddRowResult) (tgt : PartitionRef)
    (r : Row) : Nat → BuilderSt → BuilderSt × Except Status Nat
  | k, st =>
    match hsp : spillPartition UnpinMode.unpinAllExceptCurrent st with
    | (st', Except.error e) => (st', Except.error e)
    | (st', Except.ok _) =>
      match addRow k with
      | AddRowResult.success => (st'.addRowTo tgt r, Except.ok (k + 1))
      | AddRowResult.err => (st', Except.error Status.streamError)
      | AddRowResult.full => appendRowStreamFull addRow tgt r (k + 1) st'
termination_by k st => countSpillable st
decreasing_by exact spillPartition_ok_lt _ _ _ _ hsp

/-- One row of `PhjBuilder::ProcessBuildBatch`.  Modelled from the spec
(§4.1 Send): the routing loop lives in `partitioned-hash-join-builder-ir.cc`
(not shown); a NULL-keyed row under NULL_AWARE_LEFT_ANTI_JOIN goes to the
null-aware partition, any other row to
`hash_partitions_[hash(level, key) % PARTITION_FANOUT]`; an append that
fails for lack of memory invokes `AppendRowStreamFull`. -/
def processRow (hash : Nat → Nat → Nat) (addRow : Nat → AddRowResult)
    (r : Row) (k : Nat) (st : BuilderSt) : BuilderSt × Except Status Nat :=
  let tgt := if st.joinOp = TJoinOp.nullAwareLeftAntiJoin ∧ r.nullKey = true
    then PartitionRef.nullAware
    else PartitionRef.hashPartition (hash st.level r.key % PARTITION_FANOUT)
  match addRow k with
  | AddRowResult.success => (st.addRowTo tgt r, Except.ok (k + 1))
  | AddRowResult.err => (st, Except.error Status.streamError)
  | AddRowResult.full => appendRowStreamFull addRow tgt r (k + 1) st

/-- `PhjBuilder::Send` (lines 163-186): feed every row of the batch through
the partitioning loop, aborting on the first error. -/
def send (hash : Nat → Nat → Nat) (addRow : Nat → AddRowResult) :
    List Row → Nat → BuilderSt → BuilderSt × Except Status Nat
  | [], k, st => (st, Except.ok k)
  | r :: rest, k, st =>
    match processRow hash addRow r k st with
    | (st', Except.ok k') => send hash addRow rest k' st'
    | (st', Except.error e) => (st', Except.error e)

/-- Outcome of one `Partition::BuildHashTable` call as its caller observes
it: full success (with resulting hash-table and pinned-stream sizes), a
memory failure reported as `built == false` with an OK status (pin failed,
or hash-table `Init` failed cleanly), or a hard error status from the
insert loop. -/
inductive BuildOutcome where
  | success (htBytes pinnedBytes : Nat)
  | noMem
  | err
  deriving DecidableEq, Repr

/-- The `num_enabled_filters` / `UpdateFilterFromLocal` loop of
`PhjBuilder::PublishRuntimeFilters` (lines 568-610): per filter context, the
Bloom argument starts as null; a Bloom context publishes the always-true
sentinel when `FpRateTooHigh(filter_size, num_build_rows)` and the scratch
filter (counting it enabled) otherwise; a min-max context counts as enabled
only when not always-true; `UpdateFilterFromLocal` is then called with the
Bloom argument and the local min-max filter.  Returns the update calls in
order and `num_enabled_filters`. -/
def publishRuntimeFilters (fpRateTooHigh : Nat → Nat → Bool)
    (ctxs : List FilterContext) (numBuildRows : Nat) :
    List FilterUpdate × Nat :=
  match ctxs with
  | [] => ([], 0)
  | ctx :: rest =>
    let bloomEnabled : Option BloomPub × Nat :=
      if ctx.localBloom then
        if fpRateTooHigh ctx.filterSize numBuildRows then
          (some BloomPub.alwaysTrueSentinel, 0)
        else (some BloomPub.scratch, 1)
      else
        match ctx.localMinMax with
        | some mm => if mm.alwaysTrue then (none, 0) else (none, 1)
        | none => (none, 0)
    let (ups, n) := publishRuntimeFilters fpRateTooHigh rest numBuildRows
    ({ filterId := ctx.filterId, bloom := bloomEnabled.1,
       minMax := ctx.localMinMax } :: ups, bloomEnabled.2 + n)

/-- `PhjBuilder::GetNumSpilledPartitions` (lines 490-498). -/
def getNumSpilledPartitions (ps : List Partition) : Nat :=
  ps.countP (fun p => !p.closed && p.isSpilled)

/-- The spill loop of `PhjBuilder::ReserveProbeBuffers` (lines 456-464):
while the additional reservation exceeds the client's unused reservation
(an external oracle indexed by spill iteration), spill a partition with
`UNPIN_ALL`; every victim other than the null-aware partition needs a probe
stream and raises the requirement by one buffer. -/
def reserveLoop (perStream : Nat) (unused : Nat → Nat) :
    Nat → Int → BuilderSt → BuilderSt × Except Status Int
  | j, addtl, st =>
    if (unused j : Int) < addtl then
      match hsp : spillPartition UnpinMode.unpinAll st with
      | (st', Except.error e) => (st', Except.error e)
      | (st', Except.ok ref) =>
        reserveLoop perStream unused (j + 1)
          (if ref = PartitionRef.nullAware then addtl else addtl + perStream) st'
    else (st, Except.ok addtl)
termination_by j addtl st => countSpillable st
decreasing_by exact spillPartition_ok_lt _ _ _ _ hsp

/-- `PhjBuilder::ReserveProbeBuffers(input_is_spilled)` (lines 443-467):
one probe write buffer per spilled fanout partition plus one read buffer
when the input is itself spilled; spill until the additional requirement
fits, then save it into `probe_stream_reservation_`. -/
def probeStreamsNeeded (inputIsSpilled : Bool) (ps : List Partition) : Nat :=
  getNumSpilledPartitions ps + (if inputIsSpilled then 1 else 0)

def reserveProbeBuffers (unused : Nat → Nat) (inputIsSpilled : Bool)
    (st : BuilderSt) : BuilderSt × Except Status Unit :=
  let addtl : Int :=
    ((probeStreamsNeeded inputIsSpilled st.hashPartitions
        * st.spillableBufferSize : Nat) : Int)
      - (st.probeRes : Int)
  match reserveLoop st.spillableBufferSize unused 0 addtl st with
  | (st', Except.error e) => (st', Except.error e)
  | (st', Except.ok addtl') =>
    ({ st' with probeRes := ((st'.probeRes : Int) + addtl').toNat },
      Except.ok ())

/-- The hash-table building loop of
`PhjBuilder::BuildHashTablesAndReserveProbeBuffers` (lines 426-436): skip
closed and spilled partitions; on a memory failure (`built == false`) spill
the partition with `UNPIN_ALL`; a hard error aborts the loop. -/
def buildHashTablesLoop (buildOut : Nat → BuildOutcome) :
    List Partition → Nat → List Partition × Option Status
  | [], _ => ([], none)
  | p :: rest, i =>
    if p.closed = true ∨ p.isSpilled = true then
      let r := buildHashTablesLoop buildOut rest (i + 1)
      (p :: r.1, r.2)
    else
      match buildOut i with
      | BuildOutcome.success htB pinB =>
        let p' := (p.buildHashTable true true htB pinB).1
        let r := buildHashTablesLoop buildOut rest (i + 1)
        (p' :: r.1, r.2)
      | BuildOutcome.noMem =>
        let p' := p.spill UnpinMode.unpinAll
        let r := buildHashTablesLoop buildOut rest (i + 1)
        (p' :: r.1, r.2)
      | BuildOutcome.err =>
        (((p.buildHashTable true false 0 0).1) :: rest, some Status.streamError)

/-- `PhjBuilder::BuildHashTablesAndReserveProbeBuffers` (lines 399-441):
close empty partitions and fully unpin already-spilled ones, reserve probe
buffers (may spill more partitions), build hash tables greedily (a failed
build spills the partition), then re-reserve probe buffers for partitions
spilled while building. -/
def buildHashTablesAndReserveProbeBuffers (buildOut : Nat → BuildOutcome)
    (unused : Nat → Nat) (st : BuilderSt) : BuilderSt × Except Status Unit :=
  let ps0 := st.hashPartitions.map (fun p =>
    if p.numRows = 0 then p.close
    else if p.isSpilled then { p with bytesPinned := 0 }
    else p)
  let st0 := { st with hashPartitions := ps0 }
  let inputIsSpilled := 0 < st.level
  match reserveProbeBuffers unused inputIsSpilled st0 with
  | (st1, Except.error e) => (st1, Except.error e)
  | (st1, Except.ok _) =>
    match buildHashTablesLoop buildOut st1.hashPartitions 0 with
    | (ps, some e) => ({ st1 with hashPartitions := ps }, Except.error e)
    | (ps, none) =>
      reserveProbeBuffers unused inputIsSpilled { st1 with hashPartitions := ps }

/-- `num_build_rows` as computed at the top of `FlushFinal` (lines
189-192): the sum of the fanout partitions' row counts. -/
def totalBuildRows (st : BuilderSt) : Nat :=
  (st.hashPartitions.map Partition.numRows).sum

/-- First half of `PhjBuilder::FlushFinal` (lines 188-231): at level 0
publish runtime filters and or-assign `non_empty_build_`; fully unpin a
spilled null-aware partition.  Returns the updated state and the filter
updates published. -/
def flushFinalPre (fpRateTooHigh : Nat → Nat → Bool) (st : BuilderSt) :
    BuilderSt × List FilterUpdate :=
  let numBuildRows := totalBuildRows st
  let updates := if st.level = 0
    then (publishRuntimeFilters fpRateTooHigh st.filterCtxs numBuildRows).1
    else []
  let st1 := if st.level = 0
    then { st with nonEmptyBuild := st.nonEmptyBuild || decide (0 < numBuildRows) }
    else st
  let st2 := match st1.nullAware with
    | some na =>
      if na.isSpilled then { st1 with nullAware := some (na.spill UnpinMode.unpinAll) }
      else st1
    | none => st1
  (st2, updates)

/-- `PhjBuilder::FlushFinal`, continued: build hash tables and reserve probe
buffers, then transition `PARTITIONING_BUILD → PARTITIONING_PROBE` or
`REPARTITIONING_BUILD → REPARTITIONING_PROBE`. -/
def flushFinal (fpRateTooHigh : Nat → Nat → Bool)
    (buildOut : Nat → BuildOutcome) (unused : Nat → Nat) (st : BuilderSt) :
    BuilderSt × List FilterUpdate × Except Status Unit :=
  let pre := flushFinalPre fpRateTooHigh st
  match buildHashTablesAndReserveProbeBuffers buildOut unused pre.1 with
  | (st3, Except.error e) => (st3, pre.2, Except.error e)
  | (st3, Except.ok _) =>
    ({ st3 with state :=
        if st3.state = HashJoinState.partitioningBuild
        then HashJoinState.partitioningProbe
        else HashJoinState.repartitioningProbe }, pre.2, Except.ok ())

/-- A freshly created partition (`CreateAndPreparePartition`, lines
306-315): empty stream with one pinned write buffer of the default page
size. -/
def newPartition (level bufBytes : Nat) : Partition :=
  { level := level, isSpilled := false, closed := false, rows := [],
    bytesPinned := bufBytes, curWritePageBytes := bufBytes, hashTbl := none }

/-- `PhjBuilder::CreateHashPartitions(level)` (lines 317-328): set the
hash-table context's level and create `PARTITION_FANOUT` fresh
partitions. -/
def createHashPartitions (level : Nat) (st : BuilderSt) : BuilderSt :=
  { st with
    level := level
    hashPartitions :=
      List.replicate PARTITION_FANOUT (newPartition level st.spillableBufferSize) }

/-- `PhjBuilder::TransferProbeStreamReservation` (lines 477-488): restore the
whole saved sub-reservation to the (shared) client on behalf of the probe
side. -/
def transferProbeStreamReservation (st : BuilderSt) : BuilderSt :=
  { st with probeRes := 0 }

/-- The `HashPartitions` value handed to the probe side (header struct;
constructed at lines 474 and 683). -/
structure HashPartitions where
  level : Nat
  partitions : List Partition
  nonEmptyBuild : Bool
  deriving DecidableEq, Repr

/-- `PhjBuilder::BeginInitialProbe` (lines 469-475): transfer the probe
stream reservation and hand over the current fanout. -/
def beginInitialProbe (st : BuilderSt) : BuilderSt × HashPartitions :=
  let st' := transferProbeStreamReservation st
  (st', { level := st'.level, partitions := st'.hashPartitions,
          nonEmptyBuild := st'.nonEmptyBuild })

/-- `PhjBuilder::LargestPartitionRows` (lines 723-733): the maximum row
count over the non-closed fanout partitions. -/
def largestPartitionRows (ps : List Partition) : Nat :=
  ps.foldl (fun maxRows p =>
    if p.closed then maxRows
    else if maxRows < p.numRows then p.numRows else maxRows) 0

/-- `PhjBuilder::RepartitionBuildInput(input_partition)` (lines 687-721):
prepare the input stream for reading (read-buffer failure is a memory
error), create a fresh fanout at `level + 1`, feed the input rows through
`Send`, close the input partition and run `FlushFinal`. -/
def repartitionBuildInput (hash : Nat → Nat → Nat)
    (addRow : Nat → AddRowResult) (fpRateTooHigh : Nat → Nat → Bool)
    (buildOut : Nat → BuildOutcome) (unused : Nat → Nat)
    (gotReadBuffer : Bool) (p : Partition) (st : BuilderSt) :
    BuilderSt × Except Status Unit :=
  if gotReadBuffer = false then (st, Except.error Status.memLimitExceeded)
  else
    let st1 := createHashPartitions (p.level + 1) st
    match send hash addRow p.rows 0 st1 with
    | (st2, Except.error e) => (st2, Except.error e)
    | (st2, Except.ok _) =>
      match flushFinal fpRateTooHigh buildOut unused st2 with
      | (st3, _, Except.error e) => (st3, Except.error e)
      | (st3, _, Except.ok _) => (st3, Except.ok ())

/-- The output parameters of `BeginSpilledProbe`: `*repartitioned`,
`*level`, and `*new_partitions` (set only when repartitioned). -/
structure BeginSpilledProbeOut where
  repartitioned : Bool
  level : Nat
  newPartitions : Option HashPartitions
  deriving DecidableEq, Repr

/-- `PhjBuilder::BeginSpilledProbe` (lines 612-685).  `emptyProbe` with a
read buffer skips the hash-table build; otherwise one probe read buffer is
set aside and a hash-table build is attempted (`bOut`); when it does not
fit, the builder transitions to `REPARTITIONING_BUILD`, fails if
`level + 1 >= MAX_PARTITION_DEPTH`, spills the input, returns the set-aside
buffer and repartitions; if the largest resulting partition is as large as
the input the repartition failed; otherwise the reservation is transferred
and the new fanout returned. -/
def beginSpilledProbe (hash : Nat → Nat → Nat)
    (addRow : Nat → AddRowResult) (fpRateTooHigh : Nat → Nat → Bool)
    (buildOut : Nat → BuildOutcome) (unused : Nat → Nat)
    (emptyProbe gotReadBufferEmpty : Bool) (bOut : BuildOutcome)
    (gotReadBufferRepart : Bool) (p : Partition) (st : BuilderSt) :
    BuilderSt × Except Status BeginSpilledProbeOut :=
  if emptyProbe then
    if gotReadBufferEmpty = false then (st, Except.error Status.memLimitExceeded)
    else ({ st with state := HashJoinState.probingSpilledPartition },
      Except.ok { repartitioned := false, level := p.level, newPartitions := none })
  else
    let st1 := { st with probeRes := st.probeRes + st.spillableBufferSize }
    match bOut with
    | BuildOutcome.err =>
      ({ st1 with level := p.level }, Except.error Status.streamError)
    | BuildOutcome.success _ _ =>
      let st2 := transferProbeStreamReservation { st1 with level := p.level }
      ({ st2 with state := HashJoinState.probingSpilledPartition },
        Except.ok { repartitioned := false, level := p.level, newPartitions := none })
    | BuildOutcome.noMem =>
      let st2 := { st1 with state := HashJoinState.repartitioningBuild }
      if MAX_PARTITION_DEPTH ≤ p.level + 1 then
        (st2, Except.error Status.maxPartitionDepth)
      else
        let p' := p.spill UnpinMode.unpinAll
        let st3 := { st2 with probeRes := st2.probeRes - st2.spillableBufferSize }
        let numInputRows := p'.numRows
        match repartitionBuildInput hash addRow fpRateTooHigh buildOut unused
            gotReadBufferRepart p' st3 with
        | (st4, Except.error e) => (st4, Except.error e)
        | (st4, Except.ok _) =>
          if numInputRows = largestPartitionRows st4.hashPartitions then
            (st4, Except.error Status.repartitionFails)
          else
            let st5 := transferProbeStreamReservation st4
            (st5, Except.ok {
              repartitioned := true
              level := st5.level
              newPartitions := some {
                level := st5.level
                partitions := st5.hashPartitions
                nonEmptyBuild := st5.nonEmptyBuild } })

/-- The per-partition loop of `PhjBuilder::DoneProbingHashPartitions`
(lines 500-523): keep closed partitions; close non-retained spilled ones;
push unspilled partitions to `output_partitions` when the join op emits
unmatched build rows, otherwise close them.  Returns the partitions after
the loop and `output_partitions` in order. -/
def doneProbingLoop (joinOp : TJoinOp) (retain : List Bool) :
    List Partition → Nat → List Partition × List Partition
  | [], _ => ([], [])
  | p :: rest, i =>
    let r := doneProbingLoop joinOp retain rest (i + 1)
    if p.closed then (p :: r.1, r.2)
    else if p.isSpilled then
      if retain.getD i false then (p :: r.1, r.2)
      else (p.close :: r.1, r.2)
    else if NeedToProcessUnmatchedBuildRows joinOp then (p :: r.1, p :: r.2)
    else (p.close :: r.1, r.2)

/-- `PhjBuilder::DoneProbingHashPartitions` (lines 500-523): run the loop
and clear `hash_partitions_`. -/
def doneProbingHashPartitions (retain : List Bool) (st : BuilderSt) :
    BuilderSt × List Partition :=
  ({ st with hashPartitions := [] },
    (doneProbingLoop st.joinOp retain st.hashPartitions 0).2)

/-- `PhjBuilder::DoneProbingSinglePartition` (lines 525-536): emit the
partition for unmatched-row output when the join op requires it, otherwise
close it.  Returns the state, `output_partitions`, and the partition's
final state. -/
def doneProbingSinglePartition (p : Partition) (st : BuilderSt) :
    BuilderSt × List Partition × Partition :=
  if NeedToProcessUnmatchedBuildRows st.joinOp then (st, [p], p)
  else (st, [], p.close)

/-- `PhjBuilder::CloseAndDeletePartitions` (lines 538-544): close every
partition and clear all references. -/
def closeAndDeletePartitions (st : BuilderSt) : BuilderSt :=
  { st with hashPartitions := [], nullAware := none }

/-- `PhjBuilder::Reset` (lines 258-264): assert the probe-stream
sub-reservation is empty, return to `PARTITIONING_BUILD`, clear
`non_empty_build_` and close and delete every partition. -/
def reset (st : BuilderSt) : BuilderSt :=
  closeAndDeletePartitions
    { st with state := HashJoinState.partitioningBuild, nonEmptyBuild := false }

/-- `PhjBuilder::Close` (lines 242-256): return immediately when already
closed; otherwise close and delete the partitions, release the
probe-stream sub-reservation and set `closed_`. -/
def BuilderSt.closeAll (st : BuilderSt) : BuilderSt :=
  if st.closed then st
  else { (closeAndDeletePartitions st) with probeRes := 0, closed := true }

/-- `PhjBuilder::Open` (lines 138-161): initialize the (empty)
sub-reservation, create the level-0 fanout everything else reset, and
create the null-aware partition for NULL_AWARE_LEFT_ANTI_JOIN. -/
def openBuilder (joinOp : TJoinOp) (bufSize : Nat)
    (ctxs : List FilterContext) : BuilderSt :=
  let st0 : BuilderSt :=
    { joinOp := joinOp, spillableBufferSize := bufSize, filterCtxs := ctxs,
      state := HashJoinState.partitioningBuild, level := 0,
      hashPartitions := [], nullAware := none, nonEmptyBuild := false,
      probeRes := 0, closed := false }
  let st1 := createHashPartitions 0 st0
  if joinOp = TJoinOp.nullAwareLeftAntiJoin
  then { st1 with nullAware := some (newPartition 0 bufSize) }
  else st1

/-- The operations the builder performs on a single partition before closing
it, with the external outcomes folded into the operation. -/
inductive POp where
  | spill (mode : UnpinMode)
  | buildHashTable (pinOk insertOk : Bool) (htBytes pinnedBytes : Nat)
  | close
  deriving DecidableEq, Repr

/-- Apply a partition operation, observing only the resulting partition
(errors leave the `not_built` cleanup state: hash table dropped). -/
def Partition.applyOp (p : Partition) : POp → Partition
  | POp.spill mode => p.spill mode
  | POp.buildHashTable pinOk insertOk htBytes pinnedBytes =>
      (p.buildHashTable pinOk insertOk htBytes pinnedBytes).1
  | POp.close => p.close


/-! Concrete states used by witnesses and counterexamples. -/

/-- A spilled, open partition holding one row (as left by a spill during the
build phase). -/
def exSpilled : Partition :=
  { level := 1, isSpilled := true, closed := false
    rows := [{ key := 7, nullKey := false }]
    bytesPinned := 0, curWritePageBytes := 64, hashTbl := none }

/-! Supporting lemmas. -/

theorem foldl_or_eq_any (l : List Bool) :
    ∀ b : Bool, l.foldl (· || ·) b = (b || l.any id) := by
  induction l with
  | nil => intro b; simp
  | cons a t ih =>
    intro b
    simp only [List.foldl_cons, List.any_cons, ih (b || a)]
    cases b <;> cases a <;> simp

theorem le_fst_of_mem_enumFrom' {α : Type} :
    ∀ (l : List α) (k : Nat) (y : Nat × α), y ∈ l.enumFrom k → k ≤ y.1 := by
  intro l
  induction l with
  | nil => intro k y hy; simp [List.enumFrom] at hy
  | cons a t ih =>
    intro k y hy
    simp only [List.enumFrom, List.mem_cons] at hy
    rcases hy with rfl | hy
    · exact Nat.le_refl k
    · exact Nat.le_of_succ_le (ih (k + 1) y hy)

theorem pairwise_fst_lt_enumFrom {α : Type} :
    ∀ (l : List α) (n : Nat),
    List.Pairwise (fun a b : Nat × α => a.1 < b.1) (l.enumFrom n) := by
  intro l
  induction l with
  | nil => intro n; simp [List.enumFrom]
  | cons a t ih =>
    intro n
    simp only [List.enumFrom]
    exact List.Pairwise.cons
      (fun y hy => Nat.lt_of_lt_of_le (Nat.lt_succ_self n)
        (le_fst_of_mem_enumFrom' t (n + 1) y hy))
      (ih (n + 1))

theorem pairwise_fst_lt_enum (ps : List Partition) :
    List.Pairwise (fun a b : Nat × Partition => a.1 < b.1) ps.enum :=
  pairwise_fst_lt_enumFrom ps 0

theorem pickLoop_spec :
    ∀ (l : List (Nat × Partition)) (m : Nat) (best : Option (Nat × Partition)),
    (∀ ip, best = some ip →
      ip.2.canSpill = true ∧ spillMem ip.2 = m ∧ 0 < m) →
    List.Pairwise (fun a b : Nat × Partition => a.1 < b.1) l →
    (∀ x ∈ l, ∀ ip, best = some ip → ip.1 < x.1) →
    ∀ r, pickLoop l m best = some r →
      r.2.canSpill = true ∧ 0 < spillMem r.2 ∧ m ≤ spillMem r.2 ∧
      (∀ x ∈ l, x.2.canSpill = true → spillMem x.2 ≤ spillMem r.2) ∧
      (∀ x ∈ l, x.2.canSpill = true → x.1 < r.1 → spillMem x.2 < spillMem r.2) ∧
      (best = some r ∨ (r ∈ l ∧ m < spillMem r.2)) := by
  intro l
  induction l with
  | nil =>
    intro m best hb _ _ r hr
    simp only [pickLoop] at hr
    obtain ⟨h1, h2, h3⟩ := hb r hr
    refine ⟨h1, by omega, by omega, by simp, by simp, Or.inl hr⟩
  | cons x t ih =>
    intro m best hb hpair hidx r hr
    obtain ⟨i, c⟩ := x
    simp only [pickLoop] at hr
    by_cases hcond : c.canSpill = true ∧ m < spillMem c
    · rw [if_pos hcond] at hr
      have hb' : ∀ ip, some (i, c) = some ip →
          ip.2.canSpill = true ∧ spillMem ip.2 = spillMem c ∧ 0 < spillMem c := by
        intro ip hip
        cases Option.some.inj hip
        exact ⟨hcond.1, rfl, by omega⟩
      have hidx' : ∀ y ∈ t, ∀ ip, some (i, c) = some ip → ip.1 < y.1 := by
        intro y hy ip hip
        cases Option.some.inj hip
        exact (List.pairwise_cons.mp hpair).1 y hy
      obtain ⟨hc1, hc2, hc3, hc4, hc5, hc6⟩ :=
        ih (spillMem c) (some (i, c)) hb' (List.Pairwise.of_cons hpair) hidx' r hr
      refine ⟨hc1, hc2, by omega, ?_, ?_, ?_⟩
      · intro y hy hys
        rcases List.mem_cons.mp hy with rfl | hyt
        · exact hc3
        · exact hc4 y hyt hys
      · intro y hy hys hylt
        rcases List.mem_cons.mp hy with rfl | hyt
        · rcases hc6 with hbest | hmem
          · cases Option.some.inj hbest
            simp at hylt
          · exact hmem.2
        · exact hc5 y hyt hys hylt
      · rcases hc6 with hbest | hmem
        · cases Option.some.inj hbest
          exact Or.inr ⟨List.mem_cons_self _ _, hcond.2⟩
        · exact Or.inr ⟨List.mem_cons_of_mem _ hmem.1, by
            have := hmem.2
            omega⟩
    · rw [if_neg hcond] at hr
      have hidx' : ∀ y ∈ t, ∀ ip, best = some ip → ip.1 < y.1 :=
        fun y hy => hidx y (List.mem_cons_of_mem _ hy)
      obtain ⟨hc1, hc2, hc3, hc4, hc5, hc6⟩ :=
        ih m best hb (List.Pairwise.of_cons hpair) hidx' r hr
      refine ⟨hc1, hc2, hc3, ?_, ?_, ?_⟩
      · intro y hy hys
        rcases List.mem_cons.mp hy with rfl | hyt
        · have hmle : ¬ (m < spillMem c) := fun hlt => hcond ⟨hys, hlt⟩
          have hceq : spillMem ((i, c) : Nat × Partition).2 = spillMem c := rfl
          omega
        · exact hc4 y hyt hys
      · intro y hy hys hylt
        rcases List.mem_cons.mp hy with rfl | hyt
        · have hmle : ¬ (m < spillMem c) := fun hlt => hcond ⟨hys, hlt⟩
          rcases hc6 with hbest | hmem
          · have hri := hidx (i, c) (List.mem_cons_self _ _) r hbest
            omega
          · have hceq : spillMem ((i, c) : Nat × Partition).2 = spillMem c := rfl
            have := hmem.2
            omega
        · exact hc5 y hyt hys hylt
      · rcases hc6 with hbest | hmem
        · exact Or.inl hbest
        · exact Or.inr ⟨List.mem_cons_of_mem _ hmem.1, hmem.2⟩

/-! Claim theorems. -/

/-- C7: `HashTableStoresNulls` returns true if and only if the join op is
RIGHT_OUTER_JOIN, RIGHT_ANTI_JOIN or FULL_OUTER_JOIN, or at least one
equality conjunct uses null-equals-null (`is_not_distinct_from`)
semantics. -/
theorem c7_hashTableStoresNulls_iff (joinOp : TJoinOp)
    (isNotDistinctFrom : List Bool) :
    HashTableStoresNulls joinOp isNotDistinctFrom = true ↔
      (joinOp = TJoinOp.rightOuterJoin ∨ joinOp = TJoinOp.rightAntiJoin
        ∨ joinOp = TJoinOp.fullOuterJoin
        ∨ ∃ b ∈ isNotDistinctFrom, b = true) := by
  simp only [HashTableStoresNulls, foldl_or_eq_any, Bool.false_or,
    Bool.or_eq_true, decide_eq_true_eq, List.any_eq_true, id]
  tauto

/-- C9: `Close` is idempotent: it is guarded by the `closed_` flag, so after
the first call the builder is closed and a second call leaves the state
unchanged. -/
theorem c9_close_idempotent (st : BuilderSt) :
    BuilderSt.closeAll (BuilderSt.closeAll st) = BuilderSt.closeAll st
      ∧ (BuilderSt.closeAll st).closed = true := by
  by_cases h : st.closed = true
  · constructor
    · simp [BuilderSt.closeAll, h]
    · simp [BuilderSt.closeAll, h]
  · have h' : st.closed = false := by
      cases hc : st.closed
      · rfl
      · exact absurd hc h
    constructor
    · simp [BuilderSt.closeAll, h', closeAndDeletePartitions]
    · simp [BuilderSt.closeAll, h', closeAndDeletePartitions]

/-- C1 counterexample: a successful `BuildHashTable` on a spilled, open
partition resets `is_spilled` to false (line 862) even though the partition
is not closed, so `is_spilled` is not monotonic-once-true until Close. -/
theorem c1_counterexample :
    exSpilled.isSpilled = true ∧ exSpilled.closed = false
      ∧ (exSpilled.applyOp (POp.buildHashTable true true 256 128)).isSpilled = false
      ∧ (exSpilled.applyOp (POp.buildHashTable true true 256 128)).closed = false := by
  decide

/-- C1 (amended): once a partition is spilled, the only operation that resets
`is_spilled` to false before Close is a fully successful `BuildHashTable`,
which leaves the partition with an in-memory hash table; `Spill`, failed
builds and `Close` all preserve the flag. -/
theorem c1_isSpilled_reset_only_by_build (p : Partition) (op : POp)
    (hs : p.isSpilled = true) :
    (p.applyOp op).isSpilled = true
      ∨ (p.applyOp op).hashTbl.isSome = true := by
  cases op with
  | spill mode =>
    left
    simp [Partition.applyOp, Partition.spill]
  | close =>
    left
    simp only [Partition.applyOp, Partition.close]
    split
    · exact hs
    · simpa using hs
  | buildHashTable pinOk insertOk htBytes pinnedBytes =>
    simp only [Partition.applyOp, Partition.buildHashTable]
    cases pinOk with
    | false => left; simpa using hs
    | true =>
      cases insertOk with
      | true => right; simp
      | false => left; simpa using hs

/-- C1 witness: the amended theorem applied to the concrete spilled
partition and a spill operation. -/
theorem c1_isSpilled_reset_only_by_build_witness :
    exSpilled.isSpilled = true ∧
      ((exSpilled.applyOp (POp.spill UnpinMode.unpinAll)).isSpilled = true
        ∨ (exSpilled.applyOp (POp.spill UnpinMode.unpinAll)).hashTbl.isSome = true) :=
  ⟨by decide,
    c1_isSpilled_reset_only_by_build exSpilled (POp.spill UnpinMode.unpinAll)
      (by decide)⟩

/-- A spillable null-aware partition used by the C4 witness. -/
def exC4Na : Partition :=
  { level := 0, isSpilled := false, closed := false, rows := []
    bytesPinned := 32, curWritePageBytes := 32, hashTbl := none }

/-- A builder state with a spillable null-aware partition (C4 witness). -/
def exC4St : BuilderSt :=
  { joinOp := TJoinOp.nullAwareLeftAntiJoin, spillableBufferSize := 32
    filterCtxs := [], state := HashJoinState.partitioningBuild, level := 0
    hashPartitions := [], nullAware := some exC4Na, nonEmptyBuild := false
    probeRes := 0, closed := false }

/-- C4: for every call to `SpillPartition`: a spillable null-aware partition
is always the victim; otherwise any victim chosen from the fanout is a
spillable partition whose `BytesPinned(build_rows) + hash_tbl.ByteSize()`
is maximal among spillable partitions, and strictly exceeds every earlier
spillable partition's (ties broken by iteration order); `SpillPartition`
spills exactly the chosen victim and fails only when no candidate
exists. -/
theorem c4_spillPartition_victim (st : BuilderSt) :
    (∀ na, st.nullAware = some na → na.canSpill = true →
      spillPartitionChoice st = some (PartitionRef.nullAware, na)) ∧
    (∀ i p, spillPartitionChoice st = some (PartitionRef.hashPartition i, p) →
      st.hashPartitions[i]? = some p ∧ p.canSpill = true ∧
      (∀ x ∈ st.hashPartitions.enum, x.2.canSpill = true →
        spillMem x.2 ≤ spillMem p ∧ (x.1 < i → spillMem x.2 < spillMem p))) ∧
    (∀ mode ref pt, spillPartitionChoice st = some (ref, pt) →
      (spillPartition mode st).2 = Except.ok ref) ∧
    (∀ mode, spillPartitionChoice st = none →
      (spillPartition mode st).2 = Except.error Status.noSpillablePartition) := by
  refine ⟨?_, ?_, ?_, ?_⟩
  · intro na hna hc
    simp [spillPartitionChoice, hna, hc]
  · intro i p hch
    have hpl := spillPartitionChoice_hashPartition_inv st i p hch
    have hspec := pickLoop_spec st.hashPartitions.enum 0 none
      (by intro ip h; cases h) (pairwise_fst_lt_enum _)
      (by intro x hx ip h; cases h) (i, p) hpl
    obtain ⟨h1, _, _, h4, h5, h6⟩ := hspec
    rcases h6 with h6 | h6
    · cases h6
    · refine ⟨List.mk_mem_enum_iff_getElem?.mp h6.1, h1, ?_⟩
      intro x hx hxs
      exact ⟨h4 x hx hxs, fun hlt => h5 x hx hxs hlt⟩
  · intro mode ref pt hch
    unfold spillPartition
    rw [hch]
    cases ref <;> rfl
  · intro mode hch
    unfold spillPartition
    rw [hch]

/-- C4 witness: the theorem applied to a concrete state with a spillable
null-aware partition. -/
theorem c4_spillPartition_victim_witness :
    exC4St.nullAware = some exC4Na ∧ exC4Na.canSpill = true ∧
      spillPartitionChoice exC4St = some (PartitionRef.nullAware, exC4Na) :=
  ⟨rfl, by decide, (c4_spillPartition_victim exC4St).1 exC4Na rfl (by decide)⟩

/-- A spilled partition at the maximum allowed level (C6 witness). -/
def exC6P : Partition :=
  { level := MAX_PARTITION_DEPTH - 1, isSpilled := true, closed := false
    rows := [{ key := 42, nullKey := false }]
    bytesPinned := 0, curWritePageBytes := 64, hashTbl := none }

/-- A builder state between probe rounds (C6 witness). -/
def exC6St : BuilderSt :=
  { joinOp := TJoinOp.innerJoin, spillableBufferSize := 64
    filterCtxs := [], state := HashJoinState.probingSpilledPartition, level := 0
    hashPartitions := [], nullAware := none, nonEmptyBuild := true
    probeRes := 0, closed := false }

/-- C6: when `BeginSpilledProbe` must repartition (non-empty probe, hash
table does not fit) and `partition.level + 1 >= MAX_PARTITION_DEPTH`, it
fails with `PARTITIONED_HASH_JOIN_MAX_PARTITION_DEPTH` before spilling the
input or creating a new fanout: the resulting state only has the probe
read buffer set aside and the `REPARTITIONING_BUILD` transition applied,
and in particular `hash_partitions_` is unchanged. -/
theorem c6_max_partition_depth (hash : Nat → Nat → Nat)
    (addRow : Nat → AddRowResult) (fp : Nat → Nat → Bool)
    (buildOut : Nat → BuildOutcome) (unused : Nat → Nat)
    (gotRB1 gotRB2 : Bool) (p : Partition) (st : BuilderSt)
    (hdepth : MAX_PARTITION_DEPTH ≤ p.level + 1) :
    beginSpilledProbe hash addRow fp buildOut unused false gotRB1
        BuildOutcome.noMem gotRB2 p st =
      ({ st with
          probeRes := st.probeRes + st.spillableBufferSize
          state := HashJoinState.repartitioningBuild },
        Except.error Status.maxPartitionDepth) := by
  simp [beginSpilledProbe, hdepth]

/-- C6 witness: the theorem applied to a partition at the last legal level
in a concrete builder state. -/
theorem c6_max_partition_depth_witness :
    beginSpilledProbe (fun _ k => k) (fun _ => AddRowResult.success)
        (fun _ _ => false) (fun _ => BuildOutcome.noMem) (fun _ => 0)
        false true BuildOutcome.noMem true exC6P exC6St =
      ({ exC6St with
          probeRes := exC6St.probeRes + exC6St.spillableBufferSize
          state := HashJoinState.repartitioningBuild },
        Except.error Status.maxPartitionDepth) :=
  c6_max_partition_depth (fun _ k => k) (fun _ => AddRowResult.success)
    (fun _ _ => false) (fun _ => BuildOutcome.noMem) (fun _ => 0)
    true true exC6P exC6St (by decide)

/-- The head equation of `publishRuntimeFilters`: the update for the first
context carries the Bloom decision and passes the local min-max filter
through unconditionally. -/
theorem publishRuntimeFilters_fst_cons (fp : Nat → Nat → Bool)
    (c : FilterContext) (rest : List FilterContext) (n : Nat) :
    (publishRuntimeFilters fp (c :: rest) n).1 =
      { filterId := c.filterId
        bloom := if c.localBloom then
            some (if fp c.filterSize n then BloomPub.alwaysTrueSentinel
              else BloomPub.scratch)
          else none
        minMax := c.localMinMax } :: (publishRuntimeFilters fp rest n).1 := by
  simp only [publishRuntimeFilters]
  by_cases hlb : c.localBloom = true
  · by_cases hfp : fp c.filterSize n = true <;> simp [hlb, hfp]
  · rcases hmm : c.localMinMax with _ | mm
    · simp [hlb, hmm]
    · cases hmt : mm.alwaysTrue <;> simp [hlb, hmm, hmt]

/-- A Bloom filter context (C5 witness). -/
def exC5BCtx : FilterContext :=
  { filterId := 1, filterSize := 64, localBloom := true, localMinMax := none }

/-- An always-true min-max filter context (C5 counterexample). -/
def exC5Ctx : FilterContext :=
  { filterId := 3, filterSize := 1024, localBloom := false
    localMinMax := some { alwaysTrue := true } }

/-- A minimal builder state at level 0 (C5 witness). -/
def exC5St : BuilderSt :=
  { joinOp := TJoinOp.innerJoin, spillableBufferSize := 64
    filterCtxs := [exC5BCtx], state := HashJoinState.partitioningBuild
    level := 0, hashPartitions := [], nullAware := none
    nonEmptyBuild := false, probeRes := 0, closed := false }

/-- C5 counterexample: for a min-max filter context whose scratch filter is
always-true, `PublishRuntimeFilters` still passes the min-max filter to
`UpdateFilterFromLocal` (lines 589-595); the `AlwaysTrue()` test only
keeps it out of `num_enabled_filters`.  So "a min-max filter is published
unless it is always-true" fails: the publication call carries the filter
anyway. -/
theorem c5_counterexample :
    exC5Ctx.localMinMax = some { alwaysTrue := true } ∧
      (publishRuntimeFilters (fun _ _ => false) [exC5Ctx] 10).1 =
        [{ filterId := 3, bloom := none
           minMax := some { alwaysTrue := true } }] ∧
      (publishRuntimeFilters (fun _ _ => false) [exC5Ctx] 10).2 = 0 := by
  decide

/-- Projection: the updates computed by the first half of `FlushFinal` are
published only at level 0. -/
theorem flushFinalPre_snd (fp : Nat → Nat → Bool) (st : BuilderSt) :
    (flushFinalPre fp st).2 =
      if st.level = 0
      then (publishRuntimeFilters fp st.filterCtxs (totalBuildRows st)).1
      else [] := rfl

/-- C5 (amended): runtime filters are published only by `FlushFinal` at
level 0; per context, the Bloom argument to `UpdateFilterFromLocal` is the
always-true sentinel iff the filter bank reports the false-positive rate
too high at the observed build row count, and the scratch Bloom filter iff
not; the local min-max filter is passed through unconditionally (only the
profile's enabled count excludes always-true min-max filters). -/
theorem c5_publish_filters (fp : Nat → Nat → Bool)
    (buildOut : Nat → BuildOutcome) (unused : Nat → Nat) (st : BuilderSt) :
    ((flushFinal fp buildOut unused st).2.1 =
      if st.level = 0
      then (publishRuntimeFilters fp st.filterCtxs (totalBuildRows st)).1
      else []) ∧
    (∀ (ctxs : List FilterContext) (n i : Nat) (ctx : FilterContext)
      (u : FilterUpdate), ctxs[i]? = some ctx →
      (publishRuntimeFilters fp ctxs n).1[i]? = some u →
      u.filterId = ctx.filterId ∧ u.minMax = ctx.localMinMax ∧
      (u.bloom = some BloomPub.alwaysTrueSentinel ↔
        ctx.localBloom = true ∧ fp ctx.filterSize n = true) ∧
      (u.bloom = some BloomPub.scratch ↔
        ctx.localBloom = true ∧ fp ctx.filterSize n = false)) := by
  constructor
  · unfold flushFinal
    dsimp only
    split <;> exact flushFinalPre_snd fp st
  · intro ctxs n
    induction ctxs with
    | nil => intro i ctx u hc; simp at hc
    | cons c rest ih =>
      intro i ctx u hc hu
      rw [publishRuntimeFilters_fst_cons] at hu
      cases i with
      | zero =>
        simp only [List.getElem?_cons_zero, Option.some.injEq] at hc hu
        subst hc
        subst hu
        refine ⟨rfl, rfl, ?_, ?_⟩
        · by_cases hlb : c.localBloom = true
          · by_cases hfp : fp c.filterSize n = true <;>
              simp [hlb, hfp]
          · simp [hlb]
        · by_cases hlb : c.localBloom = true
          · by_cases hfp : fp c.filterSize n = true <;>
              simp [hlb, hfp]
          · simp [hlb]
      | succ j =>
        simp only [List.getElem?_cons_succ] at hc hu
        exact ih j ctx u hc hu

/-- C5 witness: the per-context clause applied to a concrete Bloom context
under a bank that reports the false-positive rate too high. -/
theorem c5_publish_filters_witness :
    ({ filterId := 1, bloom := some BloomPub.alwaysTrueSentinel
       minMax := none } : FilterUpdate).filterId = exC5BCtx.filterId ∧
    ({ filterId := 1, bloom := some BloomPub.alwaysTrueSentinel
       minMax := none } : FilterUpdate).minMax = exC5BCtx.localMinMax ∧
    (({ filterId := 1, bloom := some BloomPub.alwaysTrueSentinel
        minMax := none } : FilterUpdate).bloom
          = some BloomPub.alwaysTrueSentinel ↔
      exC5BCtx.localBloom = true
        ∧ (fun _ _ => true : Nat → Nat → Bool) exC5BCtx.filterSize 5 = true) ∧
    (({ filterId := 1, bloom := some BloomPub.alwaysTrueSentinel
        minMax := none } : FilterUpdate).bloom = some BloomPub.scratch ↔
      exC5BCtx.localBloom = true
        ∧ (fun _ _ => true : Nat → Nat → Bool) exC5BCtx.filterSize 5 = false) :=
  (c5_publish_filters (fun _ _ => true) (fun _ => BuildOutcome.noMem)
      (fun _ => 0) exC5St).2
    [exC5BCtx] 5 0 exC5BCtx
    { filterId := 1, bloom := some BloomPub.alwaysTrueSentinel, minMax := none }
    (by decide) (by decide)

/-- All fanout row counts bounded by `c`. -/
def RowBound (c : Nat) (st : BuilderSt) : Prop :=
  ∀ q ∈ st.hashPartitions, q.numRows ≤ c

/-- Every spillable fanout partition has freeable memory.  This holds in
every reachable state: an open unspilled partition always holds at least
its pinned write buffer (`PrepareForWrite` succeeded). -/
def PosMem (st : BuilderSt) : Prop :=
  ∀ q ∈ st.hashPartitions, q.canSpill = true → 0 < spillMem q

theorem RowBound.mono {c d : Nat} {st : BuilderSt} (h : RowBound c st)
    (hcd : c ≤ d) : RowBound d st :=
  fun q hq => Nat.le_trans (h q hq) hcd

theorem spillPartition_err_inv (mode : UnpinMode) (st st' : BuilderSt)
    (e : Status) (h : spillPartition mode st = (st', Except.error e)) :
    st' = st ∧ e = Status.noSpillablePartition
      ∧ spillPartitionChoice st = none := by
  unfold spillPartition at h
  split at h
  · rename_i hch
    obtain ⟨h1, h2⟩ := Prod.mk.injEq .. ▸ h
    exact ⟨h1.symm, (Except.error.inj h2).symm, hch⟩
  · exact absurd (congrArg Prod.snd h) (by simp)
  · exact absurd (congrArg Prod.snd h) (by simp)

theorem spillPartition_core (mode : UnpinMode) (st st' : BuilderSt)
    (r : Except Status PartitionRef) (h : spillPartition mode st = (st', r)) :
    st'.probeRes = st.probeRes ∧ st'.nonEmptyBuild = st.nonEmptyBuild
      ∧ st'.level = st.level ∧ st'.state = st.state
      ∧ st'.joinOp = st.joinOp
      ∧ st'.spillableBufferSize = st.spillableBufferSize
      ∧ (∀ c, RowBound c st → RowBound c st')
      ∧ (PosMem st → PosMem st') := by
  unfold spillPartition at h
  split at h
  · obtain ⟨h1, _⟩ := Prod.mk.injEq .. ▸ h
    subst h1
    exact ⟨rfl, rfl, rfl, rfl, rfl, rfl, fun c hc => hc, fun hp => hp⟩
  · obtain ⟨h1, _⟩ := Prod.mk.injEq .. ▸ h
    subst h1
    exact ⟨rfl, rfl, rfl, rfl, rfl, rfl, fun c hc => hc, fun hp => hp⟩
  · rename_i i p hch
    obtain ⟨h1, _⟩ := Prod.mk.injEq .. ▸ h
    subst h1
    have hpl := spillPartitionChoice_hashPartition_inv st i p hch
    rcases pickLoop_some st.hashPartitions.enum 0 none _ (i, p) rfl hpl
      with hx | hx
    · cases hx
    · have hpmem : p ∈ st.hashPartitions :=
        List.getElem?_mem (List.mk_mem_enum_iff_getElem?.mp hx.1)
      refine ⟨rfl, rfl, rfl, rfl, rfl, rfl, ?_, ?_⟩
      · intro c hc q hq
        rcases List.mem_or_eq_of_mem_set hq with hq | rfl
        · exact hc q hq
        · exact hc p hpmem
      · intro hp q hq hqs
        rcases List.mem_or_eq_of_mem_set hq with hq | rfl
        · exact hp q hq hqs
        · rw [Partition.canSpill_spill] at hqs
          cases hqs
  done

theorem addRowTo_core (st : BuilderSt) (ref : PartitionRef) (r : Row) :
    (st.addRowTo ref r).probeRes = st.probeRes
      ∧ (st.addRowTo ref r).nonEmptyBuild = st.nonEmptyBuild
      ∧ (st.addRowTo ref r).level = st.level
      ∧ (st.addRowTo ref r).state = st.state
      ∧ (st.addRowTo ref r).joinOp = st.joinOp
      ∧ (st.addRowTo ref r).spillableBufferSize = st.spillableBufferSize
      ∧ (∀ c, RowBound c st → RowBound (c + 1) (st.addRowTo ref r))
      ∧ (PosMem st → PosMem (st.addRowTo ref r)) := by
  cases ref with
  | nullAware =>
    refine ⟨rfl, rfl, rfl, rfl, rfl, rfl, ?_, ?_⟩
    · intro c hc
      exact RowBound.mono hc (Nat.le_succ c)
    · intro hp
      exact hp
  | hashPartition i =>
    cases hget : st.hashPartitions[i]? with
    | none =>
      have heq : st.addRowTo (PartitionRef.hashPartition i) r = st := by
        simp [BuilderSt.addRowTo, modifyAt, hget]
      rw [heq]
      exact ⟨rfl, rfl, rfl, rfl, rfl, rfl,
        fun c hc => RowBound.mono hc (Nat.le_succ c), fun hp => hp⟩
    | some p =>
      have heq : st.addRowTo (PartitionRef.hashPartition i) r =
          { st with hashPartitions :=
              st.hashPartitions.set i { p with rows := p.rows ++ [r] } } := by
        simp [BuilderSt.addRowTo, modifyAt, hget]
      rw [heq]
      refine ⟨rfl, rfl, rfl, rfl, rfl, rfl, ?_, ?_⟩
      · intro c hc q hq
        rcases List.mem_or_eq_of_mem_set hq with hq | rfl
        · exact Nat.le_trans (hc q hq) (Nat.le_succ c)
        · have := hc p (List.getElem?_mem hget)
          simp only [Partition.numRows, List.length_append, List.length_cons,
            List.length_nil] at this ⊢
          omega
      · intro hp q hq hqs
        rcases List.mem_or_eq_of_mem_set hq with hq | rfl
        · exact hp q hq hqs
        · exact hp p (List.getElem?_mem hget) hqs

theorem appendRowStreamFull_core (addRow : Nat → AddRowResult)
    (tgt : PartitionRef) (rr : Row) :
    ∀ (n k : Nat) (st st' : BuilderSt) (res : Except Status Nat),
    countSpillable st ≤ n →
    appendRowStreamFull addRow tgt rr k st = (st', res) →
    st'.probeRes = st.probeRes ∧ st'.nonEmptyBuild = st.nonEmptyBuild
      ∧ st'.level = st.level ∧ st'.state = st.state
      ∧ st'.joinOp = st.joinOp
      ∧ st'.spillableBufferSize = st.spillableBufferSize
      ∧ (∀ c, RowBound c st → RowBound (c + 1) st')
      ∧ (PosMem st → PosMem st') := by
  intro n
  induction n using Nat.strong_induction_on with
  | _ n ih =>
    intro k st st' res hcnt heq
    unfold appendRowStreamFull at heq
    split at heq
    · rename_i st1 e hsp
      obtain ⟨hst1, _, _⟩ := spillPartition_err_inv _ _ _ _ hsp
      subst hst1
      obtain ⟨h1, _⟩ := Prod.mk.injEq .. ▸ heq
      subst h1
      exact ⟨rfl, rfl, rfl, rfl, rfl, rfl,
        fun c hc => RowBound.mono hc (Nat.le_succ c), fun hp => hp⟩
    · rename_i st1 kr hsp
      split at heq
      · obtain ⟨h1, _⟩ := Prod.mk.injEq .. ▸ heq
        subst h1
        obtain ⟨p1, p2, p3, p4, p5, p6, p7, p8⟩ := spillPartition_core _ _ _ _ hsp
        obtain ⟨a1, a2, a3, a4, a5, a6, a7, a8⟩ := addRowTo_core st1 tgt rr
        exact ⟨a1.trans p1, a2.trans p2, a3.trans p3, a4.trans p4,
          a5.trans p5, a6.trans p6,
          fun c hc => a7 c (p7 c hc), fun hp => a8 (p8 hp)⟩
      · obtain ⟨h1, _⟩ := Prod.mk.injEq .. ▸ heq
        subst h1
        obtain ⟨p1, p2, p3, p4, p5, p6, p7, p8⟩ := spillPartition_core _ _ _ _ hsp
        exact ⟨p1, p2, p3, p4, p5, p6,
          fun c hc => RowBound.mono (p7 c hc) (Nat.le_succ c), p8⟩
      · have hdec := spillPartition_ok_lt _ _ _ _ hsp
        obtain ⟨p1, p2, p3, p4, p5, p6, p7, p8⟩ := spillPartition_core _ _ _ _ hsp
        obtain ⟨q1, q2, q3, q4, q5, q6, q7, q8⟩ :=
          ih (countSpillable st1) (Nat.lt_of_lt_of_le hdec hcnt) (k + 1)
            st1 st' res (Nat.le_refl _) heq
        exact ⟨q1.trans p1, q2.trans p2, q3.trans p3, q4.trans p4,
          q5.trans p5, q6.trans p6,
          fun c hc => q7 c (p7 c hc), fun hp => q8 (p8 hp)⟩

theorem processRow_core (hash : Nat → Nat → Nat) (addRow : Nat → AddRowResult)
    (r : Row) (k : Nat) (st st' : BuilderSt) (res : Except Status Nat)
    (heq : processRow hash addRow r k st = (st', res)) :
    st'.probeRes = st.probeRes ∧ st'.nonEmptyBuild = st.nonEmptyBuild
      ∧ st'.level = st.level ∧ st'.state = st.state
      ∧ st'.joinOp = st.joinOp
      ∧ st'.spillableBufferSize = st.spillableBufferSize
      ∧ (∀ c, RowBound c st → RowBound (c + 1) st')
      ∧ (PosMem st → PosMem st') := by
  unfold processRow at heq
  split at heq
  all_goals
    split at heq
    · obtain ⟨h1, _⟩ := Prod.mk.injEq .. ▸ heq
      subst h1
      exact addRowTo_core st _ r
    · obtain ⟨h1, _⟩ := Prod.mk.injEq .. ▸ heq
      subst h1
      exact ⟨rfl, rfl, rfl, rfl, rfl, rfl,
        fun c hc => RowBound.mono hc (Nat.le_succ c), fun hp => hp⟩
    · exact appendRowStreamFull_core addRow _ r (countSpillable st) (k + 1)
        st st' res (Nat.le_refl _) heq

theorem send_core (hash : Nat → Nat → Nat) (addRow : Nat → AddRowResult) :
    ∀ (rows : List Row) (k : Nat) (st st' : BuilderSt)
      (res : Except Status Nat),
    send hash addRow rows k st = (st', res) →
    st'.probeRes = st.probeRes ∧ st'.nonEmptyBuild = st.nonEmptyBuild
      ∧ st'.level = st.level ∧ st'.state = st.state
      ∧ st'.joinOp = st.joinOp
      ∧ st'.spillableBufferSize = st.spillableBufferSize
      ∧ (∀ c, RowBound c st → RowBound (c + rows.length) st')
      ∧ (PosMem st → PosMem st') := by
  intro rows
  induction rows with
  | nil =>
    intro k st st' res heq
    obtain ⟨h1, _⟩ := Prod.mk.injEq .. ▸ heq
    subst h1
    exact ⟨rfl, rfl, rfl, rfl, rfl, rfl,
      fun c hc => by simpa using hc, fun hp => hp⟩
  | cons r rest ih =>
    intro k st st' res heq
    unfold send at heq
    split at heq
    · rename_i st1 k1 hpr
      obtain ⟨p1, p2, p3, p4, p5, p6, p7, p8⟩ := processRow_core _ _ _ _ _ _ _ hpr
      obtain ⟨q1, q2, q3, q4, q5, q6, q7, q8⟩ := ih k1 st1 st' res heq
      refine ⟨q1.trans p1, q2.trans p2, q3.trans p3, q4.trans p4,
        q5.trans p5, q6.trans p6, ?_, fun hp => q8 (p8 hp)⟩
      intro c hc
      have := q7 (c + 1) (p7 c hc)
      refine RowBound.mono this (by simp [List.length_cons]; omega)
    · rename_i st1 e hpr
      obtain ⟨h1, _⟩ := Prod.mk.injEq .. ▸ heq
      subst h1
      obtain ⟨p1, p2, p3, p4, p5, p6, p7, p8⟩ := processRow_core _ _ _ _ _ _ _ hpr
      exact ⟨p1, p2, p3, p4, p5, p6,
        fun c hc => RowBound.mono (p7 c hc) (by simp [List.length_cons]),
        p8⟩

theorem Partition.numRows_close (p : Partition) :
    p.close.numRows = p.numRows := by
  unfold Partition.close
  split <;> rfl

theorem reserveLoop_core (perStream : Nat) (unused : Nat → Nat) :
    ∀ (n j : Nat) (a : Int) (st st' : BuilderSt) (res : Except Status Int),
    countSpillable st ≤ n →
    reserveLoop perStream unused j a st = (st', res) →
    st'.probeRes = st.probeRes ∧ st'.nonEmptyBuild = st.nonEmptyBuild
      ∧ st'.level = st.level ∧ st'.state = st.state
      ∧ st'.joinOp = st.joinOp
      ∧ st'.spillableBufferSize = st.spillableBufferSize
      ∧ (∀ c, RowBound c st → RowBound c st')
      ∧ (PosMem st → PosMem st') := by
  intro n
  induction n using Nat.strong_induction_on with
  | _ n ih =>
    intro j a st st' res hcnt heq
    unfold reserveLoop at heq
    split at heq
    · split at heq
      · rename_i st1 e hsp
        obtain ⟨hst1, _, _⟩ := spillPartition_err_inv _ _ _ _ hsp
        subst hst1
        obtain ⟨h1, _⟩ := Prod.mk.injEq .. ▸ heq
        subst h1
        exact ⟨rfl, rfl, rfl, rfl, rfl, rfl, fun c hc => hc, fun hp => hp⟩
      · rename_i st1 ref hsp
        have hdec := spillPartition_ok_lt _ _ _ _ hsp
        obtain ⟨p1, p2, p3, p4, p5, p6, p7, p8⟩ := spillPartition_core _ _ _ _ hsp
        obtain ⟨q1, q2, q3, q4, q5, q6, q7, q8⟩ :=
          ih (countSpillable st1) (Nat.lt_of_lt_of_le hdec hcnt) (j + 1) _
            st1 st' res (Nat.le_refl _) heq
        exact ⟨q1.trans p1, q2.trans p2, q3.trans p3, q4.trans p4,
          q5.trans p5, q6.trans p6,
          fun c hc => q7 c (p7 c hc), fun hp => q8 (p8 hp)⟩
    · obtain ⟨h1, _⟩ := Prod.mk.injEq .. ▸ heq
      subst h1
      exact ⟨rfl, rfl, rfl, rfl, rfl, rfl, fun c hc => hc, fun hp => hp⟩

theorem reserveProbeBuffers_core (unused : Nat → Nat) (inputIsSpilled : Bool)
    (st st' : BuilderSt) (res : Except Status Unit)
    (heq : reserveProbeBuffers unused inputIsSpilled st = (st', res)) :
    st'.nonEmptyBuild = st.nonEmptyBuild
      ∧ st'.level = st.level ∧ st'.state = st.state
      ∧ st'.joinOp = st.joinOp
      ∧ st'.spillableBufferSize = st.spillableBufferSize
      ∧ (∀ c, RowBound c st → RowBound c st')
      ∧ (PosMem st → PosMem st') := by
  unfold reserveProbeBuffers at heq
  dsimp only at heq
  split at heq
  · rename_i st1 e hrl
    obtain ⟨h1, _⟩ := Prod.mk.injEq .. ▸ heq
    subst h1
    obtain ⟨_, q2, q3, q4, q5, q6, q7, q8⟩ :=
      reserveLoop_core _ unused (countSpillable st) _ _ st st1 _
        (Nat.le_refl _) hrl
    exact ⟨q2, q3, q4, q5, q6, q7, q8⟩
  · rename_i st1 a1 hrl
    obtain ⟨h1, _⟩ := Prod.mk.injEq .. ▸ heq
    subst h1
    obtain ⟨_, q2, q3, q4, q5, q6, q7, q8⟩ :=
      reserveLoop_core _ unused (countSpillable st) _ _ st st1 _
        (Nat.le_refl _) hrl
    exact ⟨q2, q3, q4, q5, q6, q7, q8⟩

theorem buildHashTablesLoop_rows (buildOut : Nat → BuildOutcome) :
    ∀ (ps : List Partition) (i c : Nat),
    (∀ q ∈ ps, q.numRows ≤ c) →
    ∀ q ∈ (buildHashTablesLoop buildOut ps i).1, q.numRows ≤ c := by
  intro ps
  induction ps with
  | nil => intro i c _ q hq; simp [buildHashTablesLoop] at hq
  | cons p rest ih =>
    intro i c hb q hq
    unfold buildHashTablesLoop at hq
    split at hq
    · rcases List.mem_cons.mp hq with rfl | hq
      · exact hb q (List.mem_cons_self _ _)
      · exact ih (i + 1) c (fun r hr => hb r (List.mem_cons_of_mem _ hr)) q hq
    · split at hq
      · rcases List.mem_cons.mp hq with rfl | hq
        · have := hb p (List.mem_cons_self _ _)
          simpa [Partition.buildHashTable, Partition.numRows] using this
        · exact ih (i + 1) c (fun r hr => hb r (List.mem_cons_of_mem _ hr)) q hq
      · rcases List.mem_cons.mp hq with rfl | hq
        · exact hb p (List.mem_cons_self _ _)
        · exact ih (i + 1) c (fun r hr => hb r (List.mem_cons_of_mem _ hr)) q hq
      · rcases List.mem_cons.mp hq with rfl | hq
        · have := hb p (List.mem_cons_self _ _)
          simpa [Partition.buildHashTable, Partition.numRows] using this
        · exact hb q (List.mem_cons_of_mem _ hq)

theorem buildHashTablesAndReserveProbeBuffers_core
    (buildOut : Nat → BuildOutcome) (unused : Nat → Nat)
    (st st' : BuilderSt) (res : Except Status Unit)
    (heq : buildHashTablesAndReserveProbeBuffers buildOut unused st
      = (st', res)) :
    st'.nonEmptyBuild = st.nonEmptyBuild
      ∧ st'.level = st.level ∧ st'.state = st.state
      ∧ st'.joinOp = st.joinOp
      ∧ st'.spillableBufferSize = st.spillableBufferSize
      ∧ (∀ c, RowBound c st → RowBound c st') := by
  unfold buildHashTablesAndReserveProbeBuffers at heq
  dsimp only at heq
  have hmap : ∀ c, RowBound c st →
      ∀ q ∈ st.hashPartitions.map (fun p =>
        if p.numRows = 0 then p.close
        else if p.isSpilled then { p with bytesPinned := 0 }
        else p), q.numRows ≤ c := by
    intro c hc q hq
    obtain ⟨p, hp, rfl⟩ := List.mem_map.mp hq
    have := hc p hp
    split
    · simpa [Partition.numRows_close] using this
    · split
      · exact this
      · exact this
  split at heq
  · rename_i st1 e hrp
    obtain ⟨h1, _⟩ := Prod.mk.injEq .. ▸ heq
    subst h1
    obtain ⟨q1, q2, q3, q4, q5, q6, _⟩ := reserveProbeBuffers_core _ _ _ _ _ hrp
    exact ⟨q1, q2, q3, q4, q5, fun c hc => q6 c (hmap c hc)⟩
  · rename_i st1 u1 hrp
    obtain ⟨q1, q2, q3, q4, q5, q6, _⟩ := reserveProbeBuffers_core _ _ _ _ _ hrp
    split at heq
    · rename_i ps e hloop
      obtain ⟨h1, _⟩ := Prod.mk.injEq .. ▸ heq
      subst h1
      refine ⟨q1, q2, q3, q4, q5, ?_⟩
      intro c hc q hq
      have hb1 : ∀ q ∈ st1.hashPartitions, q.numRows ≤ c := q6 c (hmap c hc)
      have := buildHashTablesLoop_rows buildOut st1.hashPartitions 0 c hb1
      rw [hloop] at this
      exact this q hq
    · rename_i ps hloop
      obtain ⟨r1, r2, r3, r4, r5, r6, _⟩ := reserveProbeBuffers_core _ _ _ _ _ heq
      refine ⟨r1.trans q1, r2.trans q2, r3.trans q3, r4.trans q4,
        r5.trans q5, ?_⟩
      intro c hc
      refine r6 c ?_
      intro q hq
      have hb1 : ∀ q ∈ st1.hashPartitions, q.numRows ≤ c := q6 c (hmap c hc)
      have := buildHashTablesLoop_rows buildOut st1.hashPartitions 0 c hb1
      rw [hloop] at this
      exact this q hq

theorem flushFinalPre_core (fp : Nat → Nat → Bool) (st : BuilderSt) :
    (flushFinalPre fp st).1.nonEmptyBuild =
        (if st.level = 0
          then st.nonEmptyBuild || decide (0 < totalBuildRows st)
          else st.nonEmptyBuild)
      ∧ (flushFinalPre fp st).1.level = st.level
      ∧ (flushFinalPre fp st).1.state = st.state
      ∧ (flushFinalPre fp st).1.joinOp = st.joinOp
      ∧ (flushFinalPre fp st).1.spillableBufferSize = st.spillableBufferSize
      ∧ (flushFinalPre fp st).1.hashPartitions = st.hashPartitions := by
  by_cases hl : st.level = 0
  · rcases hna : st.nullAware with _ | na
    · simp [flushFinalPre, hl, hna]
    · cases hsp : na.isSpilled
      · simp [flushFinalPre, hl, hna, hsp]
      · simp [flushFinalPre, hl, hna, hsp]
  · rcases hna : st.nullAware with _ | na
    · simp [flushFinalPre, hl, hna]
    · cases hsp : na.isSpilled
      · simp [flushFinalPre, hl, hna, hsp]
      · simp [flushFinalPre, hl, hna, hsp]

theorem flushFinal_core (fp : Nat → Nat → Bool) (buildOut : Nat → BuildOutcome)
    (unused : Nat → Nat) (st st' : BuilderSt) (ups : List FilterUpdate)
    (r : Except Status Unit)
    (heq : flushFinal fp buildOut unused st = (st', ups, r)) :
    st'.nonEmptyBuild =
        (if st.level = 0
          then st.nonEmptyBuild || decide (0 < totalBuildRows st)
          else st.nonEmptyBuild)
      ∧ st'.level = st.level
      ∧ st'.joinOp = st.joinOp
      ∧ st'.spillableBufferSize = st.spillableBufferSize
      ∧ (∀ c, RowBound c st → RowBound c st') := by
  obtain ⟨f1, f2, f3, f4, f5, f6⟩ := flushFinalPre_core fp st
  unfold flushFinal at heq
  dsimp only at heq
  split at heq
  · rename_i st3 e hb
    obtain ⟨h1, _⟩ := Prod.mk.injEq .. ▸ heq
    subst h1
    obtain ⟨b1, b2, _, _, b5, b6⟩ :=
      buildHashTablesAndReserveProbeBuffers_core _ _ _ _ _ hb
    refine ⟨b1.trans f1, b2.trans f2, ?_, ?_, ?_⟩
    · have := buildHashTablesAndReserveProbeBuffers_core _ _ _ _ _ hb
      exact this.2.2.2.1.trans f4
    · have := buildHashTablesAndReserveProbeBuffers_core _ _ _ _ _ hb
      exact this.2.2.2.2.1.trans f5
    · intro c hc
      refine b6 c ?_
      intro q hq
      rw [f6] at hq
      exact hc q hq
  · rename_i st3 u1 hb
    obtain ⟨h1, _⟩ := Prod.mk.injEq .. ▸ heq
    subst h1
    obtain ⟨b1, b2, _, b4, b5, b6⟩ :=
      buildHashTablesAndReserveProbeBuffers_core _ _ _ _ _ hb
    refine ⟨b1.trans f1, b2.trans f2, b4.trans f4, b5.trans f5, ?_⟩
    intro c hc
    refine b6 c ?_
    intro q hq
    rw [f6] at hq
    exact hc q hq

theorem createHashPartitions_rowBound (lvl : Nat) (st : BuilderSt) :
    RowBound 0 (createHashPartitions lvl st) := by
  intro q hq
  simp only [createHashPartitions] at hq
  rw [List.eq_of_mem_replicate hq]
  simp [newPartition, Partition.numRows]

theorem repartitionBuildInput_core (hash : Nat → Nat → Nat)
    (addRow : Nat → AddRowResult) (fp : Nat → Nat → Bool)
    (buildOut : Nat → BuildOutcome) (unused : Nat → Nat)
    (gotRB : Bool) (p : Partition) (st st' : BuilderSt)
    (r : Except Status Unit)
    (heq : repartitionBuildInput hash addRow fp buildOut unused gotRB p st
      = (st', r)) :
    st'.nonEmptyBuild = st.nonEmptyBuild
      ∧ st'.joinOp = st.joinOp
      ∧ st'.spillableBufferSize = st.spillableBufferSize := by
  unfold repartitionBuildInput at heq
  dsimp only at heq
  split at heq
  · obtain ⟨h1, _⟩ := Prod.mk.injEq .. ▸ heq
    subst h1
    exact ⟨rfl, rfl, rfl⟩
  · split at heq
    · rename_i st2 e hsend
      obtain ⟨h1, _⟩ := Prod.mk.injEq .. ▸ heq
      subst h1
      obtain ⟨_, s2, _, _, s5, s6, _, _⟩ := send_core _ _ _ _ _ _ _ hsend
      exact ⟨s2, s5, s6⟩
    · rename_i st2 k2 hsend
      obtain ⟨_, s2, s3, _, s5, s6, _, _⟩ := send_core _ _ _ _ _ _ _ hsend
      have hlvl2 : st2.level = p.level + 1 := by
        rw [s3]; rfl
      split at heq
      · rename_i st3 e hflush
        obtain ⟨h1, _⟩ := Prod.mk.injEq .. ▸ heq
        subst h1
        obtain ⟨g1, _, g3, g4, _⟩ := flushFinal_core _ _ _ _ _ _ _ hflush
        rw [hlvl2] at g1
        simp only [Nat.succ_ne_zero, if_neg] at g1
        exact ⟨g1.trans s2, g3.trans s5, g4.trans s6⟩
      · rename_i st3 u3 hflush
        obtain ⟨h1, _⟩ := Prod.mk.injEq .. ▸ heq
        subst h1
        obtain ⟨g1, _, g3, g4, _⟩ := flushFinal_core _ _ _ _ _ _ _ hflush
        rw [hlvl2] at g1
        simp only [Nat.succ_ne_zero, if_neg] at g1
        exact ⟨g1.trans s2, g3.trans s5, g4.trans s6⟩

theorem repartitionBuildInput_rowBound (hash : Nat → Nat → Nat)
    (addRow : Nat → AddRowResult) (fp : Nat → Nat → Bool)
    (buildOut : Nat → BuildOutcome) (unused : Nat → Nat)
    (gotRB : Bool) (p : Partition) (st st' : BuilderSt)
    (r : Except Status Unit)
    (heq : repartitionBuildInput hash addRow fp buildOut unused gotRB p st
      = (st', r)) :
    r = Except.ok () → RowBound p.rows.length st' := by
  intro hok
  subst hok
  unfold repartitionBuildInput at heq
  dsimp only at heq
  split at heq
  · exact absurd (congrArg Prod.snd heq) (by simp)
  · split at heq
    · exact absurd (congrArg Prod.snd heq) (by simp)
    · rename_i st2 k2 hsend
      obtain ⟨_, _, _, _, _, _, s7, _⟩ := send_core _ _ _ _ _ _ _ hsend
      have hb2 : RowBound p.rows.length st2 := by
        have := s7 0 (createHashPartitions_rowBound (p.level + 1) st)
        simpa using this
      split at heq
      · exact absurd (congrArg Prod.snd heq) (by simp)
      · rename_i st3 u3 hflush
        obtain ⟨h1, _⟩ := Prod.mk.injEq .. ▸ heq
        subst h1
        obtain ⟨_, _, _, _, g5⟩ := flushFinal_core _ _ _ _ _ _ _ hflush
        exact g5 _ hb2

theorem largestPartitionRows_le (ps : List Partition) (c : Nat)
    (h : ∀ q ∈ ps, q.numRows ≤ c) : largestPartitionRows ps ≤ c := by
  unfold largestPartitionRows
  suffices hgen : ∀ a, a ≤ c →
      List.foldl (fun maxRows p =>
        if p.closed then maxRows
        else if maxRows < p.numRows then p.numRows else maxRows) a ps ≤ c by
    exact hgen 0 (Nat.zero_le c)
  induction ps with
  | nil => intro a ha; simpa using ha
  | cons p rest ih =>
    intro a ha
    simp only [List.foldl_cons]
    have hp := h p (List.mem_cons_self _ _)
    have hrest : ∀ q ∈ rest, q.numRows ≤ c :=
      fun q hq => h q (List.mem_cons_of_mem _ hq)
    have ih' := ih hrest
    by_cases hc : p.closed = true
    · simp only [hc, if_true]
      exact ih' a ha
    · simp only [hc, if_false]
      by_cases hlt : a < p.numRows
      · simp only [hlt, if_true]
        exact ih' _ hp
      · simp only [hlt, if_false]
        exact ih' a ha

/-- Statuses that the internal helpers (spilling, appending, reserving,
building hash tables) can produce: never the two repartition-specific
errors. -/
def InnerErr (e : Status) : Prop :=
  e = Status.noSpillablePartition ∨ e = Status.streamError
    ∨ e = Status.memLimitExceeded

theorem appendRowStreamFull_err (addRow : Nat → AddRowResult)
    (tgt : PartitionRef) (rr : Row) :
    ∀ (n k : Nat) (st st' : BuilderSt) (e : Status),
    countSpillable st ≤ n →
    appendRowStreamFull addRow tgt rr k st = (st', Except.error e) →
    InnerErr e := by
  intro n
  induction n using Nat.strong_induction_on with
  | _ n ih =>
    intro k st st' e hcnt heq
    unfold appendRowStreamFull at heq
    split at heq
    · rename_i st1 e1 hsp
      obtain ⟨_, he, _⟩ := spillPartition_err_inv _ _ _ _ hsp
      obtain ⟨_, h2⟩ := Prod.mk.injEq .. ▸ heq
      cases Except.error.inj h2
      exact Or.inl he
    · rename_i st1 kr hsp
      split at heq
      · exact absurd (congrArg Prod.snd heq) (by simp)
      · obtain ⟨_, h2⟩ := Prod.mk.injEq .. ▸ heq
        cases Except.error.inj h2
        exact Or.inr (Or.inl rfl)
      · have hdec := spillPartition_ok_lt _ _ _ _ hsp
        exact ih (countSpillable st1) (Nat.lt_of_lt_of_le hdec hcnt) (k + 1)
          st1 st' e (Nat.le_refl _) heq

theorem processRow_err (hash : Nat → Nat → Nat) (addRow : Nat → AddRowResult)
    (r : Row) (k : Nat) (st st' : BuilderSt) (e : Status)
    (heq : processRow hash addRow r k st = (st', Except.error e)) :
    InnerErr e := by
  unfold processRow at heq
  split at heq
  all_goals
    split at heq
    · exact absurd (congrArg Prod.snd heq) (by simp)
    · obtain ⟨_, h2⟩ := Prod.mk.injEq .. ▸ heq
      cases Except.error.inj h2
      exact Or.inr (Or.inl rfl)
    · exact appendRowStreamFull_err addRow _ r (countSpillable st) (k + 1)
        st st' e (Nat.le_refl _) heq

theorem send_err (hash : Nat → Nat → Nat) (addRow : Nat → AddRowResult) :
    ∀ (rows : List Row) (k : Nat) (st st' : BuilderSt) (e : Status),
    send hash addRow rows k st = (st', Except.error e) → InnerErr e := by
  intro rows
  induction rows with
  | nil =>
    intro k st st' e heq
    exact absurd (congrArg Prod.snd heq) (by simp [send])
  | cons r rest ih =>
    intro k st st' e heq
    unfold send at heq
    split at heq
    · rename_i st1 k1 hpr
      exact ih k1 st1 st' e heq
    · rename_i st1 e1 hpr
      obtain ⟨_, h2⟩ := Prod.mk.injEq .. ▸ heq
      cases Except.error.inj h2
      exact processRow_err _ _ _ _ _ _ _ hpr

theorem reserveLoop_err (perStream : Nat) (unused : Nat → Nat) :
    ∀ (n j : Nat) (a : Int) (st st' : BuilderSt) (e : Status),
    countSpillable st ≤ n →
    reserveLoop perStream unused j a st = (st', Except.error e) →
    InnerErr e := by
  intro n
  induction n using Nat.strong_induction_on with
  | _ n ih =>
    intro j a st st' e hcnt heq
    unfold reserveLoop at heq
    split at heq
    · split at heq
      · rename_i st1 e1 hsp
        obtain ⟨_, he, _⟩ := spillPartition_err_inv _ _ _ _ hsp
        obtain ⟨_, h2⟩ := Prod.mk.injEq .. ▸ heq
        cases Except.error.inj h2
        exact Or.inl he
      · rename_i st1 ref hsp
        have hdec := spillPartition_ok_lt _ _ _ _ hsp
        exact ih (countSpillable st1) (Nat.lt_of_lt_of_le hdec hcnt) (j + 1) _
          st1 st' e (Nat.le_refl _) heq
    · exact absurd (congrArg Prod.snd heq) (by simp)

theorem reserveProbeBuffers_err (unused : Nat → Nat) (inputIsSpilled : Bool)
    (st st' : BuilderSt) (e : Status)
    (heq : reserveProbeBuffers unused inputIsSpilled st
      = (st', Except.error e)) : InnerErr e := by
  unfold reserveProbeBuffers at heq
  dsimp only at heq
  split at heq
  · rename_i st1 e1 hrl
    obtain ⟨_, h2⟩ := Prod.mk.injEq .. ▸ heq
    cases Except.error.inj h2
    exact reserveLoop_err _ unused (countSpillable st) _ _ st st1 _
      (Nat.le_refl _) hrl
  · exact absurd (congrArg Prod.snd heq) (by simp)

theorem buildHashTablesLoop_err (buildOut : Nat → BuildOutcome) :
    ∀ (ps : List Partition) (i : Nat) (e : Status),
    (buildHashTablesLoop buildOut ps i).2 = some e →
    e = Status.streamError := by
  intro ps
  induction ps with
  | nil =>
    intro i e heq
    simp [buildHashTablesLoop] at heq
  | cons p rest ih =>
    intro i e heq
    unfold buildHashTablesLoop at heq
    split at heq
    · exact ih (i + 1) e heq
    · split at heq
      · exact ih (i + 1) e heq
      · exact ih (i + 1) e heq
      · exact (Option.some.inj heq).symm

theorem buildHashTablesAndReserveProbeBuffers_err
    (buildOut : Nat → BuildOutcome) (unused : Nat → Nat)
    (st st' : BuilderSt) (e : Status)
    (heq : buildHashTablesAndReserveProbeBuffers buildOut unused st
      = (st', Except.error e)) : InnerErr e := by
  unfold buildHashTablesAndReserveProbeBuffers at heq
  dsimp only at heq
  split at heq
  · rename_i st1 e1 hrp
    obtain ⟨_, h2⟩ := Prod.mk.injEq .. ▸ heq
    cases Except.error.inj h2
    exact reserveProbeBuffers_err _ _ _ _ _ hrp
  · rename_i st1 u1 hrp
    split at heq
    · rename_i ps e2 hloop
      obtain ⟨_, h2⟩ := Prod.mk.injEq .. ▸ heq
      cases Except.error.inj h2
      have hl2 : (buildHashTablesLoop buildOut st1.hashPartitions 0).2 = some e := by
        rw [hloop]
      exact Or.inr (Or.inl
        (buildHashTablesLoop_err buildOut st1.hashPartitions 0 _ hl2))
    · exact reserveProbeBuffers_err _ _ _ _ _ heq

theorem flushFinal_err (fp : Nat → Nat → Bool) (buildOut : Nat → BuildOutcome)
    (unused : Nat → Nat) (st st' : BuilderSt) (ups : List FilterUpdate)
    (e : Status)
    (heq : flushFinal fp buildOut unused st = (st', ups, Except.error e)) :
    InnerErr e := by
  unfold flushFinal at heq
  dsimp only at heq
  split at heq
  · rename_i st3 e1 hb
    have h2 := congrArg (fun x => x.2.2) heq
    simp only at h2
    cases Except.error.inj h2
    exact buildHashTablesAndReserveProbeBuffers_err _ _ _ _ _ hb
  · exact absurd (congrArg (fun x => x.2.2) heq) (by simp)

theorem repartitionBuildInput_err (hash : Nat → Nat → Nat)
    (addRow : Nat → AddRowResult) (fp : Nat → Nat → Bool)
    (buildOut : Nat → BuildOutcome) (unused : Nat → Nat)
    (gotRB : Bool) (p : Partition) (st st' : BuilderSt) (e : Status)
    (heq : repartitionBuildInput hash addRow fp buildOut unused gotRB p st
      = (st', Except.error e)) : InnerErr e := by
  unfold repartitionBuildInput at heq
  dsimp only at heq
  split at heq
  · obtain ⟨_, h2⟩ := Prod.mk.injEq .. ▸ heq
    cases Except.error.inj h2
    exact Or.inr (Or.inr rfl)
  · split at heq
    · rename_i st2 e1 hsend
      obtain ⟨_, h2⟩ := Prod.mk.injEq .. ▸ heq
      cases Except.error.inj h2
      exact send_err _ _ _ _ _ _ _ hsend
    · rename_i st2 k2 hsend
      split at heq
      · rename_i st3 ups3 e3 hflush
        obtain ⟨_, h2⟩ := Prod.mk.injEq .. ▸ heq
        cases Except.error.inj h2
        exact flushFinal_err _ _ _ _ _ _ _ hflush
      · exact absurd (congrArg Prod.snd heq) (by simp)

/-- C2: when `BeginSpilledProbe` repartitions a spilled partition
(non-empty probe, hash table does not fit): on success the largest
non-closed new child partition has strictly fewer rows than the input
partition had; and whenever it fails with
`PARTITIONED_HASH_JOIN_REPARTITION_FAILS`, the largest child partition had
exactly the input's row count (the progress check at lines 671-679). -/
theorem c2_repartition_progress (hash : Nat → Nat → Nat)
    (addRow : Nat → AddRowResult) (fp : Nat → Nat → Bool)
    (buildOut : Nat → BuildOutcome) (unused : Nat → Nat)
    (gotRB1 gotRB2 : Bool) (p : Partition) (st : BuilderSt) :
    (∀ st' out,
      beginSpilledProbe hash addRow fp buildOut unused false gotRB1
        BuildOutcome.noMem gotRB2 p st = (st', Except.ok out) →
      out.repartitioned = true
        ∧ largestPartitionRows st'.hashPartitions < p.numRows) ∧
    (∀ st' e,
      beginSpilledProbe hash addRow fp buildOut unused false gotRB1
        BuildOutcome.noMem gotRB2 p st = (st', Except.error e) →
      e = Status.repartitionFails →
      p.numRows = largestPartitionRows st'.hashPartitions) := by
  constructor
  · intro st' out heq
    unfold beginSpilledProbe at heq
    split at heq
    · rename_i hfalse
      exact absurd hfalse (by simp)
    · dsimp only at heq
      split at heq
      · exact absurd (congrArg Prod.snd heq) (by simp)
      · split at heq
        · exact absurd (congrArg Prod.snd heq) (by simp)
        · rename_i st4 u4 hrep
          split at heq
          · exact absurd (congrArg Prod.snd heq) (by simp)
          · rename_i hne
            obtain ⟨h1, h2⟩ := Prod.mk.injEq .. ▸ heq
            subst h1
            cases Except.ok.inj h2
            have hbound := repartitionBuildInput_rowBound _ _ _ _ _ _ _ _ _ _
              hrep rfl
            have hle := largestPartitionRows_le st4.hashPartitions
              (p.spill UnpinMode.unpinAll).rows.length hbound
            have hrows : (p.spill UnpinMode.unpinAll).numRows = p.numRows := rfl
            refine ⟨rfl, ?_⟩
            have hne' : ¬((p.spill UnpinMode.unpinAll).numRows
                = largestPartitionRows st4.hashPartitions) := hne
            have htr : (transferProbeStreamReservation st4).hashPartitions
                = st4.hashPartitions := rfl
            rw [htr]
            simp only [Partition.numRows] at hrows hle hne' ⊢
            omega
  · intro st' e heq herr
    subst herr
    unfold beginSpilledProbe at heq
    split at heq
    · rename_i hfalse
      exact absurd hfalse (by simp)
    · dsimp only at heq
      split at heq
      · exact absurd ((Except.error.inj (congrArg Prod.snd heq))) (by simp)
      · split at heq
        · rename_i st4 e4 hrep
          obtain ⟨_, h2⟩ := Prod.mk.injEq .. ▸ heq
          have he4 := Except.error.inj h2
          subst he4
          have := repartitionBuildInput_err _ _ _ _ _ _ _ _ _ _ hrep
          rcases this with h | h | h <;> simp at h
        · rename_i st4 u4 hrep
          split at heq
          · rename_i hcond
            obtain ⟨h1, _⟩ := Prod.mk.injEq .. ▸ heq
            subst h1
            exact hcond
          · exact absurd (congrArg Prod.snd heq) (by simp)

/-- The spilled input partition for the C2 witness: two rows with distinct
keys, so repartitioning at level 1 makes progress. -/
def exC2P : Partition :=
  { level := 0, isSpilled := true, closed := false
    rows := [{ key := 0, nullKey := false }, { key := 1, nullKey := false }]
    bytesPinned := 0, curWritePageBytes := 0, hashTbl := none }

/-- Builder state between probe rounds for the C2 witness. -/
def exC2St : BuilderSt :=
  { joinOp := TJoinOp.innerJoin, spillableBufferSize := 0, filterCtxs := []
    state := HashJoinState.probingSpilledPartition, level := 0
    hashPartitions := [], nullAware := none, nonEmptyBuild := true
    probeRes := 0, closed := false }

/-- C2 witness: the theorem's success clause applied to a concrete
repartition of a two-key partition. -/
theorem c2_repartition_progress_witness :
    largestPartitionRows
      (beginSpilledProbe (fun _ k => k) (fun _ => AddRowResult.success)
        (fun _ _ => false) (fun _ => BuildOutcome.noMem) (fun _ => 0)
        false true BuildOutcome.noMem true exC2P exC2St).1.hashPartitions
      < exC2P.numRows := by
  rcases hres : (beginSpilledProbe (fun _ k => k)
      (fun _ => AddRowResult.success) (fun _ _ => false)
      (fun _ => BuildOutcome.noMem) (fun _ => 0)
      false true BuildOutcome.noMem true exC2P exC2St).2 with e | out
  · exfalso
    simp [beginSpilledProbe, repartitionBuildInput, createHashPartitions,
      send, processRow, flushFinal, flushFinalPre, publishRuntimeFilters,
      totalBuildRows, buildHashTablesAndReserveProbeBuffers,
      reserveProbeBuffers, reserveLoop, buildHashTablesLoop,
      probeStreamsNeeded, getNumSpilledPartitions, largestPartitionRows,
      transferProbeStreamReservation, Partition.spill, Partition.close,
      Partition.buildHashTable, Partition.numRows, Partition.unpinnedBytes,
      newPartition, BuilderSt.addRowTo, modifyAt, PARTITION_FANOUT,
      MAX_PARTITION_DEPTH, exC2P, exC2St, List.replicate] at hres
  · have heq : beginSpilledProbe (fun _ k => k)
        (fun _ => AddRowResult.success) (fun _ _ => false)
        (fun _ => BuildOutcome.noMem) (fun _ => 0)
        false true BuildOutcome.noMem true exC2P exC2St
        = ((beginSpilledProbe (fun _ k => k)
            (fun _ => AddRowResult.success) (fun _ _ => false)
            (fun _ => BuildOutcome.noMem) (fun _ => 0)
            false true BuildOutcome.noMem true exC2P exC2St).1,
          Except.ok out) := by
      rw [← hres]
    exact ((c2_repartition_progress (fun _ k => k)
      (fun _ => AddRowResult.success) (fun _ _ => false)
      (fun _ => BuildOutcome.noMem) (fun _ => 0)
      true true exC2P exC2St).1 _ out heq).2

theorem snd_mem_of_mem_enum {l : List Partition} {x : Nat × Partition}
    (h : x ∈ l.enum) : x.2 ∈ l := by
  obtain ⟨i, a⟩ := x
  exact List.getElem?_mem (List.mk_mem_enum_iff_getElem?.mp h)

theorem pickLoop_ne_none (l : List (Nat × Partition)) :
    ∀ (m : Nat) (b : Nat × Partition), pickLoop l m (some b) ≠ none := by
  induction l with
  | nil => intro m b h; simp [pickLoop] at h
  | cons x t ih =>
    intro m b h
    obtain ⟨i, c⟩ := x
    simp only [pickLoop] at h
    by_cases hcond : c.canSpill = true ∧ m < spillMem c
    · rw [if_pos hcond] at h
      exact ih (spillMem c) (i, c) h
    · rw [if_neg hcond] at h
      exact ih m b h

theorem pickLoop_none_bound (l : List (Nat × Partition)) :
    ∀ m : Nat, pickLoop l m none = none →
    ∀ x ∈ l, x.2.canSpill = true → spillMem x.2 ≤ m := by
  induction l with
  | nil => intro m _ x hx; simp at hx
  | cons y t ih =>
    intro m h x hx hxs
    obtain ⟨i, c⟩ := y
    simp only [pickLoop] at h
    by_cases hcond : c.canSpill = true ∧ m < spillMem c
    · rw [if_pos hcond] at h
      exact absurd h (pickLoop_ne_none t (spillMem c) (i, c))
    · rw [if_neg hcond] at h
      rcases List.mem_cons.mp hx with rfl | hx
      · have : ¬ (m < spillMem c) := fun hlt => hcond ⟨hxs, hlt⟩
        have hceq : spillMem ((i, c) : Nat × Partition).2 = spillMem c := rfl
        omega
      · exact ih m h x hx hxs

theorem pickLoop_none_of_all (l : List (Nat × Partition)) :
    ∀ m : Nat, (∀ x ∈ l, x.2.canSpill = false) →
    pickLoop l m none = none := by
  induction l with
  | nil => intro m _; rfl
  | cons y t ih =>
    intro m hall
    obtain ⟨i, c⟩ := y
    simp only [pickLoop]
    have hc : c.canSpill = false := hall (i, c) (List.mem_cons_self _ _)
    rw [if_neg (by simp [hc])]
    exact ih m (fun x hx => hall x (List.mem_cons_of_mem _ hx))

theorem spillPartitionChoice_none_inv (st : BuilderSt)
    (h : spillPartitionChoice st = none) :
    (∀ na, st.nullAware = some na → na.canSpill = false)
      ∧ pickLoop st.hashPartitions.enum 0 none = none := by
  unfold spillPartitionChoice at h
  split at h
  · rename_i na hna
    split at h
    · simp at h
    · rename_i hc
      constructor
      · intro na' hna'
        rw [hna] at hna'
        cases Option.some.inj hna'
        cases hcs : na.canSpill
        · rfl
        · exact absurd hcs hc
      · cases hpl : pickLoop st.hashPartitions.enum 0 none with
        | none => rfl
        | some ip => rw [hpl] at h; simp at h
  · rename_i hna
    refine ⟨fun na' hna' => absurd hna' (by rw [hna]; simp), ?_⟩
    cases hpl : pickLoop st.hashPartitions.enum 0 none with
    | none => rfl
    | some ip => rw [hpl] at h; simp at h

theorem countSpillable_zero_of_choice_none (st : BuilderSt)
    (h : spillPartitionChoice st = none) (hp : PosMem st) :
    countSpillable st = 0 := by
  obtain ⟨hna, hpl⟩ := spillPartitionChoice_none_inv st h
  have hall : ∀ q ∈ st.hashPartitions, ¬(q.canSpill = true) := by
    intro q hq hqs
    obtain ⟨i, hi⟩ := List.mem_iff_getElem?.mp hq
    have hmem : ((i, q) : Nat × Partition) ∈ st.hashPartitions.enum :=
      List.mk_mem_enum_iff_getElem?.mpr hi
    have hle := pickLoop_none_bound _ 0 hpl (i, q) hmem hqs
    have hpos := hp q hq hqs
    have hceq : spillMem ((i, q) : Nat × Partition).2 = spillMem q := rfl
    omega
  unfold countSpillable
  rw [List.countP_eq_zero.mpr (by intro a ha; simpa using hall a ha)]
  cases hn : st.nullAware with
  | none => rfl
  | some na => simp [hna na hn]

theorem spillPartition_of_choice_none (mode : UnpinMode) (st : BuilderSt)
    (h : spillPartitionChoice st = none) :
    spillPartition mode st = (st, Except.error Status.noSpillablePartition) := by
  unfold spillPartition
  rw [h]

theorem choice_none_of_countSpillable_zero (st : BuilderSt)
    (h : countSpillable st = 0) : spillPartitionChoice st = none := by
  unfold countSpillable at h
  have hcp : st.hashPartitions.countP (fun p => p.canSpill) = 0 := by omega
  have hall : ∀ q ∈ st.hashPartitions, q.canSpill = false := by
    intro q hq
    have := List.countP_eq_zero.mp hcp q hq
    simpa using this
  have hpl : pickLoop st.hashPartitions.enum 0 none = none :=
    pickLoop_none_of_all _ 0 (fun x hx => hall x.2 (snd_mem_of_mem_enum hx))
  cases hn : st.nullAware with
  | none => simp [spillPartitionChoice, hn, hpl]
  | some na =>
    rw [hn] at h
    have hnac : na.canSpill = false := by
      cases hc : na.canSpill
      · rfl
      · have hone : st.hashPartitions.countP (fun p => p.canSpill) + 1 = 0 :=
          by simpa [hc] using h
        omega
    simp [spillPartitionChoice, hn, hnac, hpl]

theorem appendRowStreamFull_step (addRow : Nat → AddRowResult)
    (tgt : PartitionRef) (rr : Row) (k : Nat) (st : BuilderSt) :
    appendRowStreamFull addRow tgt rr k st =
      match spillPartition UnpinMode.unpinAllExceptCurrent st with
      | (st1, Except.error e) => (st1, Except.error e)
      | (st1, Except.ok _) =>
        match addRow k with
        | AddRowResult.success => (st1.addRowTo tgt rr, Except.ok (k + 1))
        | AddRowResult.err => (st1, Except.error Status.streamError)
        | AddRowResult.full => appendRowStreamFull addRow tgt rr (k + 1) st1 := by
  conv_lhs => unfold appendRowStreamFull
  split
  · rename_i st1 e hsp
    rw [hsp]
  · rename_i st1 kr hsp
    rw [hsp]

/-- C3: on an append that fails for lack of memory, the builder spills one
partition and retries, repeating until the append succeeds or no spillable
partition remains.  Provided the stream only reports success or
memory-pressure failure (no hard error), the loop returns success exactly
when some retry\'s `AddRow` succeeded, and otherwise fails with the
no-spillable-partition error in a state where every partition is already
spilled or closed; when nothing can be spilled to begin with, it fails
that way immediately. -/
theorem c3_append_spill_retry (addRow : Nat → AddRowResult)
    (tgt : PartitionRef) (rr : Row) :
    ∀ (st : BuilderSt) (k : Nat),
    PosMem st →
    (∀ j, addRow j ≠ AddRowResult.err) →
    ((∃ st' k', appendRowStreamFull addRow tgt rr k st = (st', Except.ok k')
        ∧ addRow (k' - 1) = AddRowResult.success)
      ∨ (∃ st', appendRowStreamFull addRow tgt rr k st
          = (st', Except.error Status.noSpillablePartition)
          ∧ countSpillable st' = 0))
    ∧ (countSpillable st = 0 →
      appendRowStreamFull addRow tgt rr k st
        = (st, Except.error Status.noSpillablePartition)) := by
  have main : ∀ (n : Nat) (st : BuilderSt) (k : Nat),
      countSpillable st ≤ n →
      PosMem st →
      (∀ j, addRow j ≠ AddRowResult.err) →
      ((∃ st' k', appendRowStreamFull addRow tgt rr k st
          = (st', Except.ok k') ∧ addRow (k' - 1) = AddRowResult.success)
        ∨ (∃ st', appendRowStreamFull addRow tgt rr k st
            = (st', Except.error Status.noSpillablePartition)
            ∧ countSpillable st' = 0)) := by
    intro n
    induction n using Nat.strong_induction_on with
    | _ n ih =>
      intro st k hcnt hpos hnoerr
      rcases hsp : spillPartition UnpinMode.unpinAllExceptCurrent st
        with ⟨st1, rsp⟩
      cases rsp with
      | error e =>
        obtain ⟨hst1, he, hch⟩ := spillPartition_err_inv _ _ _ _ hsp
        subst hst1
        subst he
        right
        refine ⟨_, ?_, countSpillable_zero_of_choice_none _ hch hpos⟩
        rw [appendRowStreamFull_step, hsp]
      | ok ref =>
        have hposs := (spillPartition_core _ _ _ _ hsp).2.2.2.2.2.2.2 hpos
        cases haddrow : addRow k with
        | success =>
          left
          refine ⟨st1.addRowTo tgt rr, k + 1, ?_, by simpa using haddrow⟩
          rw [appendRowStreamFull_step, hsp, haddrow]
        | err => exact absurd haddrow (hnoerr k)
        | full =>
          have hdec := spillPartition_ok_lt _ _ _ _ hsp
          have hrec := ih (countSpillable st1)
            (Nat.lt_of_lt_of_le hdec hcnt) st1 (k + 1)
            (Nat.le_refl _) hposs hnoerr
          rw [appendRowStreamFull_step, hsp, haddrow]
          exact hrec
  intro st k hpos hnoerr
  refine ⟨main (countSpillable st) st k (Nat.le_refl _) hpos hnoerr, ?_⟩
  intro hzero
  have hch := choice_none_of_countSpillable_zero st hzero
  have hsp := spillPartition_of_choice_none UnpinMode.unpinAllExceptCurrent
    st hch
  rw [appendRowStreamFull_step, hsp]

/-- A fresh, spillable partition with a pinned write buffer (C3 witness). -/
def exC3P : Partition :=
  { level := 0, isSpilled := false, closed := false, rows := []
    bytesPinned := 64, curWritePageBytes := 64, hashTbl := none }

/-- A builder state whose fanout holds one spillable partition
(C3 witness). -/
def exC3St : BuilderSt :=
  { joinOp := TJoinOp.innerJoin, spillableBufferSize := 64, filterCtxs := []
    state := HashJoinState.partitioningBuild, level := 0
    hashPartitions := [exC3P], nullAware := none, nonEmptyBuild := false
    probeRes := 0, closed := false }

/-- C3 witness: the theorem applied to a concrete state with one spillable
partition and a stream that accepts the retried row. -/
theorem c3_append_spill_retry_witness :
    ((∃ st' k', appendRowStreamFull (fun _ => AddRowResult.success)
          (PartitionRef.hashPartition 0) { key := 5, nullKey := false }
          0 exC3St
        = (st', Except.ok k')
        ∧ (fun _ => AddRowResult.success) (k' - 1) = AddRowResult.success)
      ∨ (∃ st', appendRowStreamFull (fun _ => AddRowResult.success)
          (PartitionRef.hashPartition 0) { key := 5, nullKey := false }
          0 exC3St
          = (st', Except.error Status.noSpillablePartition)
          ∧ countSpillable st' = 0))
    ∧ (countSpillable exC3St = 0 →
      appendRowStreamFull (fun _ => AddRowResult.success)
          (PartitionRef.hashPartition 0) { key := 5, nullKey := false }
          0 exC3St
        = (exC3St, Except.error Status.noSpillablePartition)) :=
  c3_append_spill_retry (fun _ => AddRowResult.success)
    (PartitionRef.hashPartition 0) { key := 5, nullKey := false } exC3St 0
    (by intro q hq hs
        simp only [exC3St, List.mem_singleton] at hq
        subst hq
        decide)
    (fun _ h => AddRowResult.noConfusion h)

theorem beginSpilledProbe_newPartitions (hash : Nat → Nat → Nat)
    (addRow : Nat → AddRowResult) (fp : Nat → Nat → Bool)
    (buildOut : Nat → BuildOutcome) (unused : Nat → Nat)
    (emptyProbe g1 : Bool) (bOut : BuildOutcome) (g2 : Bool)
    (p : Partition) (st st' : BuilderSt) (out : BeginSpilledProbeOut)
    (hp : HashPartitions)
    (heq : beginSpilledProbe hash addRow fp buildOut unused emptyProbe g1
      bOut g2 p st = (st', Except.ok out))
    (hnp : out.newPartitions = some hp) :
    hp.nonEmptyBuild = st.nonEmptyBuild := by
  unfold beginSpilledProbe at heq
  split at heq
  · split at heq
    · exact absurd (congrArg Prod.snd heq) (by simp)
    · obtain ⟨_, h2⟩ := Prod.mk.injEq .. ▸ heq
      cases Except.ok.inj h2
      simp at hnp
  · dsimp only at heq
    split at heq
    · exact absurd (congrArg Prod.snd heq) (by simp)
    · obtain ⟨_, h2⟩ := Prod.mk.injEq .. ▸ heq
      cases Except.ok.inj h2
      simp at hnp
    · split at heq
      · exact absurd (congrArg Prod.snd heq) (by simp)
      · split at heq
        · exact absurd (congrArg Prod.snd heq) (by simp)
        · rename_i st4 u4 hrep
          split at heq
          · exact absurd (congrArg Prod.snd heq) (by simp)
          · obtain ⟨h1, h2⟩ := Prod.mk.injEq .. ▸ heq
            cases Except.ok.inj h2
            simp only [Option.some.injEq] at hnp
            subst hnp
            obtain ⟨r1, _, _⟩ := repartitionBuildInput_core _ _ _ _ _ _ _ _ _ _ hrep
            exact r1

/-- C8: `non_empty_build_` is modified only by `FlushFinal` at level 0
(or-assigned with "this round partitioned at least one row", so it never
falls back to false) and by `Reset` (cleared); `Send`, `SpillPartition`,
`BeginInitialProbe` and the `DoneProbing` calls leave it unchanged; the
`HashPartitions` handed out by `BeginInitialProbe` and by a successful
repartitioning `BeginSpilledProbe` carry exactly the current flag, which
therefore records whether the level-0 build input was non-empty. -/
theorem c8_nonEmptyBuild :
    (∀ (hash : Nat → Nat → Nat) (addRow : Nat → AddRowResult)
      (rows : List Row) (k : Nat) (st : BuilderSt),
      ((send hash addRow rows k st).1).nonEmptyBuild = st.nonEmptyBuild) ∧
    (∀ (fp : Nat → Nat → Bool) (buildOut : Nat → BuildOutcome)
      (unused : Nat → Nat) (st : BuilderSt),
      ((flushFinal fp buildOut unused st).1).nonEmptyBuild =
        (if st.level = 0
          then st.nonEmptyBuild || decide (0 < totalBuildRows st)
          else st.nonEmptyBuild)) ∧
    (∀ st : BuilderSt, (reset st).nonEmptyBuild = false) ∧
    (∀ st : BuilderSt,
      (beginInitialProbe st).2.nonEmptyBuild = st.nonEmptyBuild) ∧
    (∀ (hash : Nat → Nat → Nat) (addRow : Nat → AddRowResult)
      (fp : Nat → Nat → Bool) (buildOut : Nat → BuildOutcome)
      (unused : Nat → Nat) (emptyProbe g1 : Bool) (bOut : BuildOutcome)
      (g2 : Bool) (p : Partition) (st st' : BuilderSt)
      (out : BeginSpilledProbeOut) (hp : HashPartitions),
      beginSpilledProbe hash addRow fp buildOut unused emptyProbe g1
        bOut g2 p st = (st', Except.ok out) →
      out.newPartitions = some hp →
      hp.nonEmptyBuild = st.nonEmptyBuild) ∧
    (∀ (retain : List Bool) (st : BuilderSt),
      (doneProbingHashPartitions retain st).1.nonEmptyBuild
        = st.nonEmptyBuild) ∧
    (∀ (p : Partition) (st : BuilderSt),
      (doneProbingSinglePartition p st).1.nonEmptyBuild
        = st.nonEmptyBuild) ∧
    (∀ (mode : UnpinMode) (st : BuilderSt),
      ((spillPartition mode st).1).nonEmptyBuild = st.nonEmptyBuild) := by
  refine ⟨?_, ?_, ?_, ?_, ?_, ?_, ?_, ?_⟩
  · intro hash addRow rows k st
    exact (send_core hash addRow rows k st _ _ rfl).2.1
  · intro fp buildOut unused st
    exact (flushFinal_core fp buildOut unused st _ _ _ rfl).1
  · intro st
    rfl
  · intro st
    rfl
  · intro hash addRow fp buildOut unused emptyProbe g1 bOut g2 p st st' out
      hp heq hnp
    exact beginSpilledProbe_newPartitions hash addRow fp buildOut unused
      emptyProbe g1 bOut g2 p st st' out hp heq hnp
  · intro retain st
    rfl
  · intro p st
    unfold doneProbingSinglePartition
    split <;> rfl
  · intro mode st
    exact (spillPartition_core mode st _ _ rfl).2.1

/-- A non-empty level-0 partition (C8 witness). -/
def exC8P : Partition :=
  { level := 0, isSpilled := false, closed := false
    rows := [{ key := 9, nullKey := false }]
    bytesPinned := 0, curWritePageBytes := 0, hashTbl := none }

/-- A level-0 builder state with one non-empty partition (C8 witness). -/
def exC8St : BuilderSt :=
  { joinOp := TJoinOp.innerJoin, spillableBufferSize := 0, filterCtxs := []
    state := HashJoinState.partitioningBuild, level := 0
    hashPartitions := [exC8P]
    nullAware := none, nonEmptyBuild := false, probeRes := 0
    closed := false }

/-- C8 witness: the FlushFinal clause applied to a concrete level-0 state
whose round partitioned one row, flipping the flag to true. -/
theorem c8_nonEmptyBuild_witness :
    ((flushFinal (fun _ _ => false) (fun _ => BuildOutcome.noMem)
      (fun _ => 0) exC8St).1).nonEmptyBuild = true := by
  rw [c8_nonEmptyBuild.2.1 (fun _ _ => false) (fun _ => BuildOutcome.noMem)
    (fun _ => 0) exC8St]
  simp [exC8St, exC8P, totalBuildRows, Partition.numRows]

theorem openBuilder_probeRes (joinOp : TJoinOp) (bufSize : Nat)
    (ctxs : List FilterContext) :
    (openBuilder joinOp bufSize ctxs).probeRes = 0 := by
  unfold openBuilder createHashPartitions
  split <;> rfl

theorem beginSpilledProbe_probeRes_ok (hash : Nat → Nat → Nat)
    (addRow : Nat → AddRowResult) (fp : Nat → Nat → Bool)
    (buildOut : Nat → BuildOutcome) (unused : Nat → Nat)
    (emptyProbe g1 : Bool) (bOut : BuildOutcome) (g2 : Bool)
    (p : Partition) (st st' : BuilderSt) (out : BeginSpilledProbeOut)
    (heq : beginSpilledProbe hash addRow fp buildOut unused emptyProbe g1
      bOut g2 p st = (st', Except.ok out)) :
    st'.probeRes = 0 ∨ st'.probeRes = st.probeRes := by
  unfold beginSpilledProbe at heq
  split at heq
  · split at heq
    · exact absurd (congrArg Prod.snd heq) (by simp)
    · obtain ⟨h1, _⟩ := Prod.mk.injEq .. ▸ heq
      subst h1
      exact Or.inr rfl
  · dsimp only at heq
    split at heq
    · exact absurd (congrArg Prod.snd heq) (by simp)
    · obtain ⟨h1, _⟩ := Prod.mk.injEq .. ▸ heq
      subst h1
      exact Or.inl rfl
    · split at heq
      · exact absurd (congrArg Prod.snd heq) (by simp)
      · split at heq
        · exact absurd (congrArg Prod.snd heq) (by simp)
        · split at heq
          · exact absurd (congrArg Prod.snd heq) (by simp)
          · obtain ⟨h1, _⟩ := Prod.mk.injEq .. ▸ heq
            subst h1
            exact Or.inl rfl

/-- The caller's position in the builder lifecycle.  Modelled from the
spec: the call protocol (§5 "methods are invoked in strict lifecycle
order", §4.1) lives in the probe-side callers, which are not shown. -/
inductive Phase where
  | building
  | awaitingProbe
  | probingHash
  | probingSpilled
  | idle
  | errored
  deriving DecidableEq, Repr

/-- The builder states reachable through legal call sequences.  Modelled
from the spec (§5 lifecycle, §4.1): `Open`, then `Send*`/`FlushFinal`,
`BeginInitialProbe`, probing, `DoneProbing*`; between probe rounds
(`idle`) the caller may revisit a spilled partition with
`BeginSpilledProbe`, call `Reset` for a new build, or `Close`; a method
that returned an error leaves only `Close` legal (§7). -/
inductive Reach : Phase → BuilderSt → Prop where
  | openB (joinOp : TJoinOp) (bufSize : Nat) (ctxs : List FilterContext) :
      Reach Phase.building (openBuilder joinOp bufSize ctxs)
  | sendOk (hash : Nat → Nat → Nat) (addRow : Nat → AddRowResult)
      (rows : List Row) (k : Nat) (st st' : BuilderSt) (k' : Nat) :
      Reach Phase.building st →
      send hash addRow rows k st = (st', Except.ok k') →
      Reach Phase.building st'
  | sendErr (hash : Nat → Nat → Nat) (addRow : Nat → AddRowResult)
      (rows : List Row) (k : Nat) (st st' : BuilderSt) (e : Status) :
      Reach Phase.building st →
      send hash addRow rows k st = (st', Except.error e) →
      Reach Phase.errored st'
  | flushOk (fp : Nat → Nat → Bool) (buildOut : Nat → BuildOutcome)
      (unused : Nat → Nat) (st st' : BuilderSt) (ups : List FilterUpdate) :
      Reach Phase.building st →
      flushFinal fp buildOut unused st = (st', ups, Except.ok ()) →
      Reach Phase.awaitingProbe st'
  | flushErr (fp : Nat → Nat → Bool) (buildOut : Nat → BuildOutcome)
      (unused : Nat → Nat) (st st' : BuilderSt) (ups : List FilterUpdate)
      (e : Status) :
      Reach Phase.building st →
      flushFinal fp buildOut unused st = (st', ups, Except.error e) →
      Reach Phase.errored st'
  | beginInitial (st : BuilderSt) :
      Reach Phase.awaitingProbe st →
      Reach Phase.probingHash (beginInitialProbe st).1
  | doneHash (retain : List Bool) (st : BuilderSt) :
      Reach Phase.probingHash st →
      Reach Phase.idle (doneProbingHashPartitions retain st).1
  | doneSingle (p : Partition) (st : BuilderSt) :
      Reach Phase.probingSpilled st →
      Reach Phase.idle (doneProbingSinglePartition p st).1
  | beginSpilledOk (hash : Nat → Nat → Nat) (addRow : Nat → AddRowResult)
      (fp : Nat → Nat → Bool) (buildOut : Nat → BuildOutcome)
      (unused : Nat → Nat) (emptyProbe g1 : Bool) (bOut : BuildOutcome)
      (g2 : Bool) (p : Partition) (st st' : BuilderSt)
      (out : BeginSpilledProbeOut) :
      Reach Phase.idle st →
      beginSpilledProbe hash addRow fp buildOut unused emptyProbe g1
        bOut g2 p st = (st', Except.ok out) →
      Reach (if out.repartitioned then Phase.probingHash
        else Phase.probingSpilled) st'
  | beginSpilledErr (hash : Nat → Nat → Nat) (addRow : Nat → AddRowResult)
      (fp : Nat → Nat → Bool) (buildOut : Nat → BuildOutcome)
      (unused : Nat → Nat) (emptyProbe g1 : Bool) (bOut : BuildOutcome)
      (g2 : Bool) (p : Partition) (st st' : BuilderSt) (e : Status) :
      Reach Phase.idle st →
      beginSpilledProbe hash addRow fp buildOut unused emptyProbe g1
        bOut g2 p st = (st', Except.error e) →
      Reach Phase.errored st'
  | resetB (st : BuilderSt) :
      Reach Phase.idle st →
      Reach Phase.building (reset st)

theorem reach_probeRes : ∀ (ph : Phase) (st : BuilderSt), Reach ph st →
    ph ≠ Phase.awaitingProbe → ph ≠ Phase.errored → st.probeRes = 0 := by
  intro ph st h
  induction h with
  | openB joinOp bufSize ctxs =>
    intro _ _
    exact openBuilder_probeRes joinOp bufSize ctxs
  | sendOk hash addRow rows k st st' k' hr heq ih =>
    intro _ _
    rw [(send_core hash addRow rows k st st' _ heq).1]
    exact ih (by simp) (by simp)
  | sendErr hash addRow rows k st st' e hr heq ih =>
    intro _ habs
    exact absurd rfl habs
  | flushOk fp buildOut unused st st' ups hr heq ih =>
    intro habs _
    exact absurd rfl habs
  | flushErr fp buildOut unused st st' ups e hr heq ih =>
    intro _ habs
    exact absurd rfl habs
  | beginInitial st hr ih =>
    intro _ _
    rfl
  | doneHash retain st hr ih =>
    intro _ _
    exact ih (by simp) (by simp)
  | doneSingle p st hr ih =>
    intro _ _
    have hpr : (doneProbingSinglePartition p st).1.probeRes = st.probeRes := by
      unfold doneProbingSinglePartition
      split <;> rfl
    rw [hpr]
    exact ih (by simp) (by simp)
  | beginSpilledOk hash addRow fp buildOut unused emptyProbe g1 bOut g2 p
      st st' out hr heq ih =>
    intro _ _
    rcases beginSpilledProbe_probeRes_ok hash addRow fp buildOut unused
      emptyProbe g1 bOut g2 p st st' out heq with h | h
    · exact h
    · rw [h]
      exact ih (by simp) (by simp)
  | beginSpilledErr hash addRow fp buildOut unused emptyProbe g1 bOut g2 p
      st st' e hr heq ih =>
    intro _ habs
    exact absurd rfl habs
  | resetB st hr ih =>
    intro _ _
    exact ih (by simp) (by simp)

/-- C10: under the legal call protocol (spec §5), whenever `Reset` may be
called (between probe rounds) the probe-stream sub-reservation holds zero
bytes, so the `DCHECK_EQ(0, probe_stream_reservation_.GetReservation())`
assertion is valid; and `Reset` restores `PARTITIONING_BUILD`, clears
`non_empty_build_` and closes and deletes every partition (clearing the
fanout and the null-aware partition), leaving the reservation
untouched. -/
theorem c10_reset_precondition :
    (∀ (ph : Phase) (st : BuilderSt), Reach ph st → ph = Phase.idle →
      st.probeRes = 0) ∧
    (∀ st : BuilderSt,
      (reset st).state = HashJoinState.partitioningBuild
        ∧ (reset st).nonEmptyBuild = false
        ∧ (reset st).hashPartitions = []
        ∧ (reset st).nullAware = none
        ∧ (reset st).probeRes = st.probeRes) := by
  constructor
  · intro ph st h hidle
    subst hidle
    exact reach_probeRes _ _ h (by simp) (by simp)
  · intro st
    exact ⟨rfl, rfl, rfl, rfl, rfl⟩

/-- C10 witness: the theorem applied at the idle state reached by a
concrete Open, FlushFinal, BeginInitialProbe, DoneProbingHashPartitions
sequence. -/
theorem c10_reset_precondition_witness :
    ((doneProbingHashPartitions []
      (beginInitialProbe
        (flushFinal (fun _ _ => false) (fun _ => BuildOutcome.noMem)
          (fun _ => 0) (openBuilder TJoinOp.innerJoin 0 [])).1).1).1).probeRes
      = 0 := by
  have h0 : Reach Phase.building (openBuilder TJoinOp.innerJoin 0 []) :=
    Reach.openB TJoinOp.innerJoin 0 []
  have hr : (flushFinal (fun _ _ => false) (fun _ => BuildOutcome.noMem)
      (fun _ => 0) (openBuilder TJoinOp.innerJoin 0 [])).2.2
      = Except.ok () := by
    simp [openBuilder, createHashPartitions, newPartition, flushFinal,
      flushFinalPre, publishRuntimeFilters, totalBuildRows,
      buildHashTablesAndReserveProbeBuffers, reserveProbeBuffers,
      reserveLoop, buildHashTablesLoop, probeStreamsNeeded,
      getNumSpilledPartitions, Partition.close, Partition.numRows,
      PARTITION_FANOUT, List.replicate]
  have heqf : flushFinal (fun _ _ => false) (fun _ => BuildOutcome.noMem)
      (fun _ => 0) (openBuilder TJoinOp.innerJoin 0 [])
      = ((flushFinal (fun _ _ => false) (fun _ => BuildOutcome.noMem)
          (fun _ => 0) (openBuilder TJoinOp.innerJoin 0 [])).1,
        (flushFinal (fun _ _ => false) (fun _ => BuildOutcome.noMem)
          (fun _ => 0) (openBuilder TJoinOp.innerJoin 0 [])).2.1,
        Except.ok ()) := by
    rw [← hr]
  have h1 := Reach.flushOk (fun _ _ => false) (fun _ => BuildOutcome.noMem)
    (fun _ => 0) (openBuilder TJoinOp.innerJoin 0 []) _ _ h0 heqf
  have h2 := Reach.beginInitial _ h1
  have h3 := Reach.doneHash [] _ h2
  exact c10_reset_precondition.1 _ _ h3 rfl

end Phj
